import Mathlib

/-!
Verification of the Lybrarian Fragment Retrieval & Prosodic Matching Engine.

This file gives a shallow embedding, in Lean, of the JavaScript modules
  - netlify/functions/lib/prosody.js        (phonetic analyzer)
  - netlify/functions/lib/retrieval.js      (dual retrieval and rank merger)
  - netlify/functions/generate.js           (request validation, generation
                                             client parsing, output validator
                                             and regeneration loop, handler)
  - the alternative fragment retriever / prosodic analyzer modules
    (src/unnamed/part_011: prosodicSearch, getStressPattern, analyzeLine)
and proves (or refutes) the specification claims about them.

Modelling conventions:
  - Strings are modelled with character-list level helper functions that
    mirror the JavaScript string operations used by the source
    (trim, toLowerCase, split(/\s+/), split by a character, slice) so that
    all definitions evaluate inside the kernel.
  - JavaScript numbers are modelled as Nat / Int / Rat as appropriate;
    score arithmetic (0.3 / 0.2 / 0.5 bonuses) is exact in Rat.
  - Fallible external services (the npm syllable package, the CMU
    pronouncing dictionary package, network calls) are parameters of the
    embedded functions; concrete stand-ins used for evaluation are marked
    "Modelled from the spec".
  - JavaScript truthiness of optional strings / numbers is modelled
    explicitly (empty string and 0 are falsy).
-/

namespace Lybrarian

/-! ### JavaScript string semantics helpers -/

/-- Whitespace test used to model the JavaScript `\s` character class
(restricted to the ASCII whitespace that can appear in the inputs). -/
def isWsChar (c : Char) : Bool :=
  c = ' ' || c = '\t' || c = '\n' || c = '\r' || c = '\x0c' || c = '\x0b'

/-- Model of JavaScript `String.prototype.trim`. -/
def jsTrim (s : String) : String :=
  ⟨((s.data.dropWhile isWsChar).reverse.dropWhile isWsChar).reverse⟩

/-- Accumulator-based splitting of a character list into maximal runs of
non-whitespace characters. -/
def wordsAux : List Char → List Char → List (List Char)
  | [], acc => if acc.isEmpty then [] else [acc.reverse]
  | c :: rest, acc =>
    if isWsChar c then
      if acc.isEmpty then wordsAux rest [] else acc.reverse :: wordsAux rest []
    else wordsAux rest (c :: acc)

/-- Model of JavaScript `s.split(/\s+/)` restricted to the uses in the
source, where the result is either consumed word by word with empty words
skipped, or only its last element is read: dropping empty fragments is
observationally equivalent in all of those uses. -/
def jsWords (s : String) : List String := (wordsAux s.data []).map (⟨·⟩)

/-- Accumulator-based splitting on a single separator character, keeping
empty fragments (JavaScript `s.split(c)` semantics). -/
def splitOnCharAux (sep : Char) : List Char → List Char → List (List Char)
  | [], acc => [acc.reverse]
  | x :: rest, acc =>
    if x = sep then acc.reverse :: splitOnCharAux sep rest []
    else splitOnCharAux sep rest (x :: acc)

/-- Model of JavaScript `s.split(c)` for a one-character separator. -/
def jsSplitChar (sep : Char) (s : String) : List String :=
  (splitOnCharAux sep s.data []).map (⟨·⟩)

/-- Model of JavaScript `String.prototype.toLowerCase` (ASCII). -/
def lowerStr (s : String) : String := ⟨s.data.map Char.toLower⟩

/-- Model of JavaScript `s.slice(-n)`: the last `n` characters. -/
def takeRightStr (s : String) (n : Nat) : String :=
  ⟨s.data.drop (s.data.length - n)⟩

/-- Model of the JavaScript idiom `v || d` for an optional string `v`
(both `undefined`/`null` and the empty string are falsy). -/
def jsOrStr (v : Option String) (d : String) : String :=
  match v with
  | some s => if s = "" then d else s
  | none => d

/-- JavaScript truthiness of an optional string. -/
def jsTruthyStr : Option String → Bool
  | some s => !(s == "")
  | none => false

/-- JavaScript truthiness of an optional integer (0 is falsy). -/
def jsTruthyInt : Option Int → Bool
  | some n => !(n == 0)
  | none => false

/-- Join a list of strings with single spaces (JavaScript `arr.join(' ')`). -/
def joinSpace (xs : List String) : String :=
  match xs with
  | [] => ""
  | x :: rest => rest.foldl (fun acc y => acc ++ " " ++ y) x

/-- Substring test, modelling SQL `LIKE '%needle%'` / JavaScript
`String.prototype.includes`. -/
def strContainsSub (hay needle : String) : Bool :=
  (List.range (hay.data.length + 1)).any (fun i => needle.data.isPrefixOf (hay.data.drop i))

/-! ### Phonetic analyzer, `netlify/functions/lib/prosody.js`

The npm `syllable` package is external to the repository, so the functions
that call it take the per-word syllable counter as the parameter
`syllableFn`. -/

/-- Embeds `cleanWord` from prosody.js: strip non-alphabetic characters, lowercase. -/
def cleanWord (w : String) : String :=
  ⟨(w.data.filter Char.isAlpha).map Char.toLower⟩

/-- Embeds `countSyllables` from prosody.js: sum of the per-word syllable counts
over cleaned words, clamped to a minimum of 1; empty input returns 1 via
the guard clause. -/
def countSyllables (syllableFn : String → Nat) (text : String) : Nat :=
  if text = "" then 1
  else
    let total := (jsWords (jsTrim text)).foldl (fun t w =>
      let c := cleanWord w
      if c = "" then t else t + syllableFn c) 0
    max 1 total

/-- Embeds `getRhymeSound` from prosody.js: the last 3 (or 2, or all) letters of
the cleaned word. -/
def getRhymeSoundJs (word : String) : Option String :=
  if word = "" then none
  else
    let c := cleanWord word
    if c = "" then none
    else if 4 ≤ c.data.length then some (takeRightStr c 3)
    else if 2 ≤ c.data.length then some (takeRightStr c 2)
    else some c

/-- Embeds `getEndWord` from prosody.js. -/
def getEndWord (text : String) : Option String :=
  if text = "" then none
  else
    match (jsWords (jsTrim text)).getLast? with
    | none => none
    | some w =>
      let c := cleanWord w
      if c = "" then none else some c

/-- Result record of prosody.js `analyzeLine`; note that this analyzer
returns no stress field. -/
structure LineAnalysis where
  text : String
  syllables : Nat
  endWord : Option String
  rhymeSound : Option String
deriving DecidableEq

/-- Embeds `analyzeLine` from prosody.js. The source wraps the body in
`try`/`catch`, but every callee is total here, so the catch branch is
unreachable and the function is modelled as total. -/
def analyzeLine (syllableFn : String → Nat) (text : String) : LineAnalysis :=
  if text = "" then ⟨"", 0, none, none⟩
  else
    let trimmed := jsTrim text
    let ew := getEndWord trimmed
    ⟨trimmed, countSyllables syllableFn trimmed, ew,
      match ew with
      | some w => getRhymeSoundJs w
      | none => none⟩

/-- Embeds `analyzeVerse` from prosody.js: split on line breaks, trim, drop blank
lines, analyze the rest. -/
def analyzeVerse (syllableFn : String → Nat) (verseText : String) : List LineAnalysis :=
  if verseText = "" then []
  else
    (((jsSplitChar '\n' verseText).map jsTrim).filter (fun l => l.data.length > 0)).map
      (analyzeLine syllableFn)

/-- Embeds `rhymesMatch` from prosody.js: case-insensitive equality, false if
either side is null or empty. -/
def rhymesMatch (s1 s2 : Option String) : Bool :=
  match s1, s2 with
  | some a, some b => !(a == "") && !(b == "") && lowerStr a == lowerStr b
  | _, _ => false

/-- Modelled from the spec: the npm `syllable` package consumed by both
analyzers is not part of this repository. The spec describes syllable
counting as a deterministic heuristic with a vowel-group fallback for
unknown words, so the external counter is modelled as counting maximal
runs of vowel letters (a, e, i, o, u, y) in the lowercased word. It is
used only to evaluate the embedded analyzers at concrete inputs. -/
def specSyllable (w : String) : Nat :=
  ((lowerStr w).data.foldl (fun (st : Nat × Bool) c =>
    let v := c = 'a' || c = 'e' || c = 'i' || c = 'o' || c = 'u' || c = 'y'
    (if v && !st.2 then st.1 + 1 else st.1, v)) (0, false)).1

/-! ### Prosodic analyzer, `src/unnamed/part_011`

This is the alternative analyzer that also produces a binary stress
pattern from the CMU pronouncing dictionary. The dictionary is an external
data package, so it is the parameter `cmu` (word to phones string). -/

/-- Contraction table from `cleanWordForPhonetics`. -/
def contractionTable : List (String × String) :=
  [("don't", "dont"), ("won't", "wont"), ("can't", "cant"), ("isn't", "isnt"),
   ("aren't", "arent"), ("wasn't", "wasnt"), ("weren't", "werent"),
   ("haven't", "havent"), ("hasn't", "hasnt"), ("hadn't", "hadnt"),
   ("wouldn't", "wouldnt"), ("couldn't", "couldnt"), ("shouldn't", "shouldnt"),
   ("mustn't", "mustnt"), ("it's", "its"), ("that's", "thats"),
   ("there's", "theres"), ("here's", "heres"), ("what's", "whats"),
   ("where's", "wheres"), ("who's", "whos"), ("i'm", "im"),
   ("you're", "youre"), ("we're", "were"), ("they're", "theyre"),
   ("i've", "ive"), ("you've", "youve"), ("we've", "weve"),
   ("they've", "theyve"), ("i'll", "ill"), ("you'll", "youll"),
   ("we'll", "well"), ("they'll", "theyll"), ("i'd", "id"),
   ("you'd", "youd"), ("we'd", "wed"), ("they'd", "theyd")]

/-- Acronym table from `cleanWordForPhonetics`. -/
def acronymTable : List (String × String) :=
  [("dms", "deems"), ("dm", "deem"), ("ai", "ayeye"), ("ui", "youeye"),
   ("api", "aypeeye")]

/-- Embeds `cleanWordForPhonetics` from the part_011 analyzer. -/
def cleanWordForPhonetics (w0 : String) : String :=
  let w := jsTrim (lowerStr w0)
  match contractionTable.find? (fun p => p.1 = w) with
  | some p => p.2
  | none =>
    match acronymTable.find? (fun p => p.1 = w) with
    | some p => p.2
    | none => ⟨w.data.filter (fun c => 'a' ≤ c && c ≤ 'z')⟩

/-- Embeds `getSyllableCount` from the part_011 analyzer: the external counter
applied to the raw line (0 for blank input). -/
def getSyllableCount (syllableFn : String → Nat) (text : String) : Nat :=
  if jsTrim text = "" then 0 else syllableFn text

/-- Stress contribution of one dictionary phones string: one symbol per
vowel phone (a phone whose last character is a stress digit), `1` for
primary stress and `0` otherwise. -/
def stressOfPhones (phones : String) : String :=
  (jsSplitChar ' ' phones).foldl (fun pat ph =>
    match ph.data.getLast? with
    | none => pat
    | some c =>
      if '0' ≤ c && c ≤ '2' then
        (if c = '1' then pat ++ "1" else pat ++ "0")
      else pat) ""

/-- Unknown-word stress fallback from `getStressPattern`: first syllable
stressed for short words, alternating stress for longer words. -/
def fallbackStress (syllableFn : String → Nat) (w : String) : String :=
  let n := syllableFn w
  if n ≤ 2 then "1" ++ ⟨List.replicate (n - 1) '0'⟩
  else ⟨(List.range n).map (fun i => if i % 2 = 0 then '1' else '0')⟩

/-- Embeds `getStressPattern` from the part_011 analyzer. -/
def getStressPattern (syllableFn : String → Nat) (cmu : String → Option String)
    (text : String) : String :=
  (jsWords (lowerStr text)).foldl (fun pat word =>
    let w := cleanWordForPhonetics word
    if w = "" then pat
    else
      match cmu w with
      | some phones => pat ++ stressOfPhones phones
      | none => pat ++ fallbackStress syllableFn w) ""

/-- Index of the last phone ending in the given stress digit. -/
def lastIdxEndingIn (pl : List String) (d : Char) : Option Nat :=
  pl.enum.foldl (fun acc p =>
    if p.2.data.getLast? = some d then some p.1 else acc) none

/-- Embeds `getRhymeSound` from the part_011 analyzer: from the last
primary-stressed (else secondary-stressed) vowel phone of the last word's
dictionary entry to the end; orthographic 3-letter fallback for unknown
words. -/
def getRhymeSound011 (cmu : String → Option String) (text : String) : Option String :=
  match (jsWords (lowerStr text)).getLast? with
  | none => none
  | some lw =>
    let w := cleanWordForPhonetics lw
    if w = "" then none
    else
      match cmu w with
      | none => some (takeRightStr w 3)
      | some phones =>
        let pl := jsSplitChar ' ' phones
        match lastIdxEndingIn pl '1' with
        | some i => some (joinSpace (pl.drop i))
        | none =>
          match lastIdxEndingIn pl '2' with
          | some i => some (joinSpace (pl.drop i))
          | none => some phones

/-- Result record of the part_011 `analyzeLine`. -/
structure LineProsody011 where
  syllables : Nat
  stressPattern : Option String
  rhymeSound : Option String
deriving DecidableEq

/-- Embeds `analyzeLine` from the part_011 analyzer. -/
def analyzeLine011 (syllableFn : String → Nat) (cmu : String → Option String)
    (text : String) : LineProsody011 :=
  if text = "" || jsTrim text = "" then ⟨0, none, none⟩
  else
    ⟨getSyllableCount syllableFn text,
     some (getStressPattern syllableFn cmu text),
     getRhymeSound011 cmu text⟩

/-- Modelled from the spec: the CMU pronouncing dictionary consumed by the
part_011 analyzer is an external data package, not part of this
repository. For concrete evaluation we fix a small lookup whose entries
are copied from the CMU Pronouncing Dictionary. -/
def cmudictModel (w : String) : Option String :=
  (([("poem", "P OW1 AH0 M"),
     ("the", "DH AH0"),
     ("night", "N AY1 T"),
     ("street", "S T R IY1 T")] : List (String × String)).find?
    (fun p => p.1 = w)).map (·.2)

/-! ### Supporting lemmas -/

theorem strData_append (a b : String) : (a ++ b).data = a.data ++ b.data := by
  cases a; cases b; rfl

/-- The binary-alphabet predicate for stress patterns. -/
def binDigit (c : Char) : Bool := c = '0' || c = '1'

theorem stressOfPhones_binary_aux (l : List String) (pat : String)
    (h : pat.data.all binDigit = true) :
    ((l.foldl (fun pat ph =>
      match ph.data.getLast? with
      | none => pat
      | some c =>
        if '0' ≤ c && c ≤ '2' then
          (if c = '1' then pat ++ "1" else pat ++ "0")
        else pat) pat).data.all binDigit) = true := by
  induction l generalizing pat with
  | nil => simpa using h
  | cons ph rest ih =>
    simp only [List.foldl_cons]
    apply ih
    cases hl : ph.data.getLast? with
    | none => simpa using h
    | some c =>
      by_cases h1 : ('0' ≤ c && c ≤ '2') = true
      · by_cases h2 : c = '1'
        · simp [h1, h2, strData_append, h, binDigit]
        · simp [h1, h2, strData_append, h, binDigit]
      · simp only [h1]
        simpa using h

theorem stressOfPhones_binary (phones : String) :
    (stressOfPhones phones).data.all binDigit = true := by
  unfold stressOfPhones
  exact stressOfPhones_binary_aux _ "" (by decide)

theorem fallbackStress_binary (syllableFn : String → Nat) (w : String) :
    (fallbackStress syllableFn w).data.all binDigit = true := by
  unfold fallbackStress
  by_cases h : syllableFn w ≤ 2
  · simp only [h, if_true]
    rw [strData_append]
    simp only [List.all_append, Bool.and_eq_true]
    constructor
    · decide
    · simp only [List.all_eq_true]
      intro c hc
      have := List.eq_of_mem_replicate hc
      simp [this, binDigit]
  · simp only [h, if_false]
    simp only [List.all_eq_true]
    intro c hc
    simp only [List.mem_map] at hc
    obtain ⟨i, _, hi⟩ := hc
    by_cases h2 : i % 2 = 0 <;> simp [← hi, h2, binDigit]

theorem getStressPattern_binary (syllableFn : String → Nat)
    (cmu : String → Option String) (text : String) :
    (getStressPattern syllableFn cmu text).data.all binDigit = true := by
  unfold getStressPattern
  generalize jsWords (lowerStr text) = ws
  suffices h : ∀ (pat : String), pat.data.all binDigit = true →
      ((ws.foldl (fun pat word =>
        let w := cleanWordForPhonetics word
        if w = "" then pat
        else
          match cmu w with
          | some phones => pat ++ stressOfPhones phones
          | none => pat ++ fallbackStress syllableFn w) pat).data.all binDigit) = true by
    exact h "" (by decide)
  intro pat hpat
  induction ws generalizing pat with
  | nil => simpa using hpat
  | cons word rest ih =>
    simp only [List.foldl_cons]
    apply ih
    by_cases hw : cleanWordForPhonetics word = ""
    · simpa [hw] using hpat
    · simp only [hw, if_false]
      cases hc : cmu (cleanWordForPhonetics word) with
      | some phones =>
        simp only [strData_append, List.all_append, Bool.and_eq_true]
        exact ⟨hpat, stressOfPhones_binary phones⟩
      | none =>
        simp only [strData_append, List.all_append, Bool.and_eq_true]
        exact ⟨hpat, fallbackStress_binary syllableFn _⟩

/-! ### Claim C4 -/

/-- Claim C4 (counterexample): the spec says empty or whitespace-only
input yields a syllable count of 0, but for the whitespace-only (non-empty)
line `" "` the prosody.js analyzer returns 1, because `countSyllables`
clamps its result to a minimum of 1. -/
theorem analyzeLine_whitespace_not_zero :
    (analyzeLine specSyllable " ").syllables = 1 := by decide

/-- Claim C4 (amended): for blank input the prosody.js analyzer never
errors and returns no end word and no rhyme token; the syllable count is 0
for the empty string (guard clause) and 1 for whitespace-only non-empty
input (the minimum enforced by `countSyllables`). This analyzer returns no
stress field at all. -/
theorem analyzeLine_blank_behavior (syllableFn : String → Nat) (s : String)
    (h : jsTrim s = "") :
    analyzeLine syllableFn s = ⟨"", if s = "" then 0 else 1, none, none⟩ := by
  by_cases hs : s = ""
  · subst hs; simp [analyzeLine]
  · simp only [analyzeLine, hs, if_false, if_neg hs, h]
    simp [countSyllables, getEndWord]

/-- Witness for `analyzeLine_blank_behavior` at the whitespace-only
input `"  "`. -/
theorem analyzeLine_blank_behavior_witness :
    jsTrim "  " = "" ∧
      analyzeLine specSyllable "  " = ⟨"", if "  " = "" then 0 else 1, none, none⟩ :=
  ⟨by decide, analyzeLine_blank_behavior specSyllable "  " (by decide)⟩

/-! ### Claim C5 -/

/-- Claim C5 (counterexample): the stress-pattern length does not always
equal the syllable count. For the line `"poem"` the part_011 analyzer
returns a syllable count of 1 (the whole-line heuristic count) but a
stress pattern of length 2 (one symbol per vowel phone of the dictionary
entry `P OW1 AH0 M`). -/
theorem analyzeLine011_stress_length_mismatch :
    (analyzeLine011 specSyllable cmudictModel "poem").syllables = 1 ∧
      ((analyzeLine011 specSyllable cmudictModel "poem").stressPattern.getD "").data.length = 2 := by
  decide

/-- Claim C5 (amended): for every input the part_011 analyzer is total
(never throws), returns a non-negative syllable count, and returns a
stress pattern over the binary alphabet {0,1}; but its length is the
number of vowel phones over the cleaned words, which need not equal the
whole-line syllable estimate. -/
theorem analyzeLine011_nonneg_binary_stress (syllableFn : String → Nat)
    (cmu : String → Option String) (text : String) :
    0 ≤ (analyzeLine011 syllableFn cmu text).syllables ∧
      (((analyzeLine011 syllableFn cmu text).stressPattern.getD "").data.all binDigit) = true := by
  refine ⟨Nat.zero_le _, ?_⟩
  unfold analyzeLine011
  by_cases h : (text = "" || jsTrim text = "") = true
  · simp [h]
  · simp only [h, if_false]
    simpa using getStressPattern_binary syllableFn cmu text

/-! ### Generation client parsing, `generate.js` `callClaudeAPI`

The HTTP layer and the markdown code-fence stripping are summarized by the
parameter of `parseClaudeResponse`: `none` models a `JSON.parse` failure on
the (possibly fence-stripped) response content, `some j` a successful parse
to the value `j`. -/

/-- Minimal JSON value model, the target of `JSON.parse`. -/
inductive Json where
  | null : Json
  | bool : Bool → Json
  | num : Int → Json
  | str : String → Json
  | arr : List Json → Json
  | obj : List (String × Json) → Json

/-- The parse step of `callClaudeAPI`. A `JSON.parse` failure and a
non-array value both surface (via the catch-and-rethrow) as the same hard
error; an array whose length differs from 10 only triggers a console
warning (`console.warn`) and is returned unchanged. -/
def parseClaudeResponse (parsed : Option Json) : Except String (List Json) :=
  match parsed with
  | none => Except.error "Failed to parse verse generation response as JSON"
  | some (Json.arr verses) => Except.ok verses
  | some _ => Except.error "Failed to parse verse generation response as JSON"

/-! ### Output validator and regeneration loop, `generate.js`
`regenerateFailedVerses`

The per-candidate validation outcome is the parameter `valid` (the claim is
about the loop regardless of validation outcome), and the generation client
is the parameter `oracle`: `oracle k` is the batch returned by the
`k`-th `callClaudeAPI` call made by the loop, with `none` modelling a
thrown error. The loop reads only the first element of each fresh batch;
an empty batch makes `newVerses[0]` undefined, which the model tracks as a
`none` slot (validating it throws, which the source catches). -/

/-- One iteration of the `while (attempts < maxRetries)` body: call the
API, substitute the first returned candidate, validate it. Returns the
new value of the `regenerated` variable and whether the attempt validated
(leading to `break`). -/
def attemptOnce {V : Type} (valid : V → Bool) (oracle : Nat → Option (List V))
    (k : Nat) (regenerated : Option V) : Option V × Bool :=
  match oracle k with
  | none => (regenerated, false)
  | some batch =>
    match batch.head? with
    | none => (none, false)
    | some v => (some v, valid v)

/-- The regeneration loop for one failing candidate (`maxRetries = 2`,
unrolled): the final slot value and the number of generation calls made. -/
def regenerateOne {V : Type} (valid : V → Bool) (oracle : Nat → Option (List V))
    (k : Nat) (orig : V) : Option V × Nat :=
  let r1 := attemptOnce valid oracle k (some orig)
  if r1.2 then (r1.1, 1)
  else ((attemptOnce valid oracle (k + 1) r1.1).1, 2)

/-- Treatment of one candidate slot: passing candidates are kept, failing
candidates go through the bounded regeneration loop. The accumulator pairs
the slots produced so far with the running generation-call count. -/
def regenStep {V : Type} (valid : V → Bool) (oracle : Nat → Option (List V))
    (acc : List (Option V) × Nat) (v : V) : List (Option V) × Nat :=
  if valid v then (acc.1 ++ [some v], acc.2)
  else
    let r := regenerateOne valid oracle acc.2 v
    (acc.1 ++ [r.1], acc.2 + r.2)

/-- Embeds `regenerateFailedVerses`: validate every candidate, run the bounded
regeneration loop on the failing ones (in index order, as the source's
`failedIndices` loop does), keep the passing ones. Returns the final
candidate array and the total number of generation calls. -/
def regenerateFailedVerses {V : Type} (valid : V → Bool)
    (oracle : Nat → Option (List V)) (verses : List V) :
    List (Option V) × Nat :=
  verses.foldl (regenStep valid oracle) ([], 0)

/-! ### Claim C3 -/

/-- Claim C3 (counterexample): a well-formed JSON array of the wrong
cardinality (3 candidates instead of 10) is NOT a hard error: the parse
step returns it unchanged, only logging a warning. -/
theorem parseClaudeResponse_wrong_cardinality_ok :
    parseClaudeResponse (some (Json.arr [Json.str "a", Json.str "b", Json.str "c"]))
        = Except.ok [Json.str "a", Json.str "b", Json.str "c"] ∧
      ([Json.str "a", Json.str "b", Json.str "c"] : List Json).length ≠ 10 :=
  ⟨rfl, by decide⟩

/-- Claim C3 (amended): malformed responses (unparseable JSON or a parsed
value that is not an array) raise a hard error surfaced to the caller; but
an array of the wrong cardinality is returned as-is with only a console
warning. -/
theorem parseClaudeResponse_hard_errors :
    (parseClaudeResponse none
        = Except.error "Failed to parse verse generation response as JSON") ∧
      (∀ j : Json, (∀ l, j ≠ Json.arr l) →
        ∃ msg, parseClaudeResponse (some j) = Except.error msg) ∧
      (∀ l : List Json, parseClaudeResponse (some (Json.arr l)) = Except.ok l) := by
  refine ⟨rfl, ?_, fun l => rfl⟩
  intro j hj
  cases j with
  | null => exact ⟨_, rfl⟩
  | bool b => exact ⟨_, rfl⟩
  | num n => exact ⟨_, rfl⟩
  | str s => exact ⟨_, rfl⟩
  | arr l => exact absurd rfl (hj l)
  | obj o => exact ⟨_, rfl⟩

/-- Witness for `parseClaudeResponse_hard_errors` at the non-array value
`Json.str "oops"`. -/
theorem parseClaudeResponse_hard_errors_witness :
    ∃ msg, parseClaudeResponse (some (Json.str "oops")) = Except.error msg :=
  parseClaudeResponse_hard_errors.2.1 (Json.str "oops") (fun _ h => Json.noConfusion h)

/-! ### Claim C2 -/

theorem regenerateOne_calls_le_two {V : Type} (valid : V → Bool)
    (oracle : Nat → Option (List V)) (k : Nat) (v : V) :
    (regenerateOne valid oracle k v).2 ≤ 2 := by
  unfold regenerateOne
  by_cases h : (attemptOnce valid oracle k (some v)).2 <;> simp [h]

theorem regenStep_fst_length {V : Type} (valid : V → Bool)
    (oracle : Nat → Option (List V)) (acc : List (Option V) × Nat) (v : V) :
    (regenStep valid oracle acc v).1.length = acc.1.length + 1 := by
  unfold regenStep
  by_cases h : valid v <;> simp [h]

theorem regenStep_snd_le {V : Type} (valid : V → Bool)
    (oracle : Nat → Option (List V)) (acc : List (Option V) × Nat) (v : V) :
    (regenStep valid oracle acc v).2 ≤ acc.2 + 2 := by
  unfold regenStep
  cases hv : valid v with
  | true =>
    rw [if_pos rfl]
    omega
  | false =>
    rw [if_neg (by simp)]
    have h2 := regenerateOne_calls_le_two valid oracle acc.2 v
    show acc.2 + (regenerateOne valid oracle acc.2 v).2 ≤ acc.2 + 2
    omega

theorem regenerateFold_aux {V : Type} (valid : V → Bool)
    (oracle : Nat → Option (List V)) (verses : List V)
    (acc : List (Option V) × Nat) :
    (verses.foldl (regenStep valid oracle) acc).1.length
        = acc.1.length + verses.length ∧
      (verses.foldl (regenStep valid oracle) acc).2 ≤ acc.2 + 2 * verses.length := by
  induction verses generalizing acc with
  | nil => simp
  | cons v rest ih =>
    simp only [List.foldl_cons, List.length_cons]
    have hs1 := regenStep_fst_length valid oracle acc v
    have hs2 := regenStep_snd_le valid oracle acc v
    have hrec := ih (regenStep valid oracle acc v)
    refine ⟨?_, ?_⟩
    · rw [hrec.1, hs1]; omega
    · have := hrec.2
      omega

/-- Claim C2 (confirmed): for every batch of candidates, every validation
predicate and every behavior of the generation client, the regeneration
loop makes at most 2 generation calls per failing candidate (and at most
2 per candidate overall), and returns exactly as many candidate slots as
it was given — a candidate that still fails after the retry budget is
kept in place, never dropped. -/
theorem regenerateFailedVerses_bounded {V : Type} (valid : V → Bool)
    (oracle : Nat → Option (List V)) (verses : List V) :
    (regenerateFailedVerses valid oracle verses).1.length = verses.length ∧
      (regenerateFailedVerses valid oracle verses).2 ≤ 2 * verses.length ∧
      ∀ (k : Nat) (v : V), (regenerateOne valid oracle k v).2 ≤ 2 := by
  have h := regenerateFold_aux valid oracle verses ([], 0)
  refine ⟨?_, ?_, fun k v => regenerateOne_calls_le_two valid oracle k v⟩
  · simpa [regenerateFailedVerses] using h.1
  · simpa [regenerateFailedVerses] using h.2

/-! ### Structural retrieval, `netlify/functions/lib/retrieval.js` -/

/-- One per-line prosody record as passed in `prosodyData.lines`
(fields `syllables`, `stress`, `rhyme`). -/
structure ProsodyLine where
  syllables : Int
  stress : String
  rhyme : Option String
deriving DecidableEq

/-- One row of the `fragment_lines` table as consulted by the structural
queries (columns the embedded code paths never read are omitted). -/
structure FragmentLineRow where
  fragment_id : String
  syllables : Int
  end_rhyme_us : String
deriving DecidableEq

/-- Accumulating dedup keeping first occurrences; models both SQL
`SELECT DISTINCT` (from an empty accumulator) and JavaScript `Set`
insertion across loop iterations. -/
def dedupKeepFirst {α : Type} [DecidableEq α] (acc : List α) (xs : List α) : List α :=
  xs.foldl (fun a x => if x ∈ a then a else a ++ [x]) acc

theorem mem_dedupKeepFirst {α : Type} [DecidableEq α] (xs : List α) (acc : List α)
    (y : α) : y ∈ dedupKeepFirst acc xs ↔ y ∈ acc ∨ y ∈ xs := by
  induction xs generalizing acc with
  | nil => simp [dedupKeepFirst]
  | cons x rest ih =>
    unfold dedupKeepFirst at *
    simp only [List.foldl_cons]
    by_cases h : x ∈ acc
    · rw [if_pos h, ih, List.mem_cons]
      constructor
      · rintro (hc | hr)
        · exact Or.inl hc
        · exact Or.inr (Or.inr hr)
      · rintro (hc | rfl | hr)
        · exact Or.inl hc
        · exact Or.inl h
        · exact Or.inr hr
    · rw [if_neg h, ih]
      simp only [List.mem_append, List.mem_singleton, List.mem_cons]
      tauto

/-- The `rhythmSetting = 'yes'` query: exact syllable-count equality. -/
def queryExact (table : List FragmentLineRow) (s : Int) : List String :=
  dedupKeepFirst []
    ((table.filter (fun r => r.syllables == s)).map (fun r => r.fragment_id))

/-- The `rhythmSetting = 'ish'` query: `syllables BETWEEN s-2 AND s+2`
(both bounds inclusive). -/
def queryBetween (table : List FragmentLineRow) (lo hi : Int) : List String :=
  dedupKeepFirst []
    ((table.filter (fun r => decide (lo ≤ r.syllables ∧ r.syllables ≤ hi))).map
      (fun r => r.fragment_id))

/-- Embeds `prosodicRetrieval` from retrieval.js. The per-line loop accumulates
fragment ids into a JavaScript `Set`. Rhyme tokens are destructured from
each line but never used in any query: filtering is on syllable counts
only. A rhythm setting other than 'yes'/'ish'/'no' leaves the SQL text
undefined, so the first query throws and the catch returns the empty
list. The source combines the missing-data and 'no' early returns into a
single guard (`rhythmSetting === 'no' || !prosodyData || !prosodyData.lines`);
they are split here, which returns the same empty list in each case. -/
def prosodicRetrieval (prosodyData : Option (List ProsodyLine))
    (table : List FragmentLineRow) (rhythmSetting : String) : List String :=
  match prosodyData with
  | none => []
  | some lines =>
      if rhythmSetting = "no" then []
      else if rhythmSetting = "yes" then
        lines.foldl (fun acc l => dedupKeepFirst acc (queryExact table l.syllables)) []
      else if rhythmSetting = "ish" then
        lines.foldl (fun acc l =>
          dedupKeepFirst acc
            (queryBetween table (l.syllables - 2) (l.syllables + 2))) []
      else []

/-- Step 2 of `retrieveFragments` in retrieval.js: the structural
retriever is invoked (exactly one call) only when the rhythm setting is
not 'no'. Returns the prosodic results together with the number of
structural-retriever calls issued. -/
def retrieveProsodicStep (prosodyData : Option (List ProsodyLine))
    (table : List FragmentLineRow) (rhythm : String) : List String × Nat :=
  if rhythm ≠ "no" then (prosodicRetrieval prosodyData table rhythm, 1)
  else ([], 0)

theorem mem_queryExact (table : List FragmentLineRow) (s : Int) (x : String) :
    x ∈ queryExact table s ↔ ∃ r ∈ table, r.fragment_id = x ∧ r.syllables = s := by
  unfold queryExact
  rw [mem_dedupKeepFirst]
  simp only [List.not_mem_nil, false_or, List.mem_map, List.mem_filter,
    beq_iff_eq]
  constructor
  · rintro ⟨r, ⟨hr, hs⟩, hid⟩
    exact ⟨r, hr, hid, hs⟩
  · rintro ⟨r, hr, hid, hs⟩
    exact ⟨r, ⟨hr, hs⟩, hid⟩

theorem mem_queryBetween (table : List FragmentLineRow) (lo hi : Int) (x : String) :
    x ∈ queryBetween table lo hi ↔
      ∃ r ∈ table, r.fragment_id = x ∧ lo ≤ r.syllables ∧ r.syllables ≤ hi := by
  unfold queryBetween
  rw [mem_dedupKeepFirst]
  simp only [List.not_mem_nil, false_or, List.mem_map, List.mem_filter,
    decide_eq_true_eq]
  constructor
  · rintro ⟨r, ⟨hr, hs⟩, hid⟩
    exact ⟨r, hr, hid, hs⟩
  · rintro ⟨r, hr, hid, hs⟩
    exact ⟨r, ⟨hr, hs⟩, hid⟩

theorem mem_linesFold (q : ProsodyLine → List String) (lines : List ProsodyLine)
    (acc : List String) (x : String) :
    x ∈ lines.foldl (fun acc l => dedupKeepFirst acc (q l)) acc ↔
      x ∈ acc ∨ ∃ l ∈ lines, x ∈ q l := by
  induction lines generalizing acc with
  | nil => simp
  | cons l rest ih =>
    simp only [List.foldl_cons]
    rw [ih]
    rw [mem_dedupKeepFirst]
    constructor
    · rintro ((h | h) | ⟨l', hl', hx⟩)
      · exact Or.inl h
      · exact Or.inr ⟨l, List.mem_cons_self l rest, h⟩
      · exact Or.inr ⟨l', List.mem_cons_of_mem _ hl', hx⟩
    · rintro (h | ⟨l', hl', hx⟩)
      · exact Or.inl (Or.inl h)
      · rcases List.mem_cons.mp hl' with rfl | hl'
        · exact Or.inl (Or.inr hx)
        · exact Or.inr ⟨l', hl', hx⟩

/-! ### Claim C6 -/

/-- Claim C6 (confirmed): structural retrieval matches by exact
syllable-count equality when the rhythm setting is strict (`'yes'`), by
syllable count within ±2 when it is loose (`'ish'`), and is not invoked at
all — no structural query is issued — when it is off (`'no'`). -/
theorem prosodicRetrieval_tolerance (table : List FragmentLineRow)
    (lines : List ProsodyLine) (prosodyData : Option (List ProsodyLine))
    (id : String) :
    (id ∈ prosodicRetrieval (some lines) table "yes" ↔
        ∃ l ∈ lines, ∃ r ∈ table, r.fragment_id = id ∧ r.syllables = l.syllables) ∧
      (id ∈ prosodicRetrieval (some lines) table "ish" ↔
        ∃ l ∈ lines, ∃ r ∈ table,
          r.fragment_id = id ∧ |r.syllables - l.syllables| ≤ 2) ∧
      retrieveProsodicStep prosodyData table "no" = ([], 0) := by
  refine ⟨?_, ?_, rfl⟩
  · have hdef : prosodicRetrieval (some lines) table "yes" =
        lines.foldl (fun acc l => dedupKeepFirst acc (queryExact table l.syllables)) [] := rfl
    rw [hdef, mem_linesFold]
    simp only [List.not_mem_nil, false_or]
    exact exists_congr fun l => and_congr_right fun _ => mem_queryExact table l.syllables id
  · have hdef : prosodicRetrieval (some lines) table "ish" =
        lines.foldl (fun acc l =>
          dedupKeepFirst acc
            (queryBetween table (l.syllables - 2) (l.syllables + 2))) [] := rfl
    rw [hdef, mem_linesFold]
    simp only [List.not_mem_nil, false_or]
    refine exists_congr fun l => and_congr_right fun _ => ?_
    rw [mem_queryBetween]
    refine exists_congr fun r => and_congr_right fun _ => and_congr_right fun _ => ?_
    rw [abs_le]
    omega

/-! ### Structural search, `src/unnamed/part_011` `prosodicSearch`

The alternative fragment-retriever module builds its per-line WHERE clause
dynamically: a syllable condition for rhythm modes 'yes'/'ish', and a rhyme
condition when the rhyming mode is not 'no', the line has a truthy rhyme
token, and the mode is 'yes' (exact `end_rhyme_us` equality) or 'ish'
(`end_rhyme_us LIKE '%suffix%'` where suffix is the token's last two
space-separated phonetic units). -/

/-- One `lineAnalysis` record consumed by `prosodicSearch`. -/
structure PLine011 where
  syllables : Int
  stressPattern : Option String
  rhymeSound : Option String
deriving DecidableEq

/-- One joined row (`fragments` x `fragment_lines`) as consulted by
`prosodicSearch` (selected columns not needed by the claims are omitted;
`created_at` participates in the ORDER BY). -/
structure JoinedRow where
  fragment_id : String
  syllables : Int
  end_rhyme_us : String
  created_at : Int
deriving DecidableEq

/-- Whether the dynamic WHERE clause receives a syllable condition. -/
def syllCondApplies (rhythmMode : String) : Bool :=
  rhythmMode == "yes" || rhythmMode == "ish"

/-- Whether the dynamic WHERE clause receives a rhyme condition. -/
def rhymeCondApplies (rhymeMode : String) (l : PLine011) : Bool :=
  !(rhymeMode == "no") && jsTruthyStr l.rhymeSound &&
    (rhymeMode == "yes" || rhymeMode == "ish")

/-- The last two space-separated phonetic units of a rhyme token
(`rhymeSound.split(' ').slice(-2).join(' ')`). -/
def lastTwoUnits (tok : String) : String :=
  let parts := jsSplitChar ' ' tok
  joinSpace (parts.drop (parts.length - 2))

/-- The conjunction of the dynamically assembled per-line WHERE
conditions, evaluated on one joined row. -/
def rowMatches (rhythmMode rhymeMode : String) (l : PLine011) (r : JoinedRow) : Bool :=
  (if rhythmMode == "yes" then r.syllables == l.syllables
   else if rhythmMode == "ish" then
     decide (l.syllables - 2 ≤ r.syllables ∧ r.syllables ≤ l.syllables + 2)
   else true) &&
  (if rhymeCondApplies rhymeMode l then
     (if rhymeMode == "yes" then r.end_rhyme_us == l.rhymeSound.getD ""
      else strContainsSub r.end_rhyme_us (lastTwoUnits (l.rhymeSound.getD "")))
   else true)

/-- The `COUNT(*) OVER (PARTITION BY f.id)` window: matching rows sharing
the row's fragment id. -/
def matchingLines (rows : List JoinedRow) (r : JoinedRow) : Nat :=
  rows.countP (fun r2 => r2.fragment_id == r.fragment_id)

/-- Stable insertion for a strict precedence test `gt`. -/
def jsSortInsert {α : Type} (gt : α → α → Bool) (x : α) : List α → List α
  | [] => [x]
  | y :: ys => if gt x y then x :: y :: ys else y :: jsSortInsert gt x ys

/-- Stable sort by repeated insertion, modelling both the mandated-stable
JavaScript `Array.prototype.sort` and the SQL ORDER BY of the embedded
queries: `gt x y` means x strictly precedes y. -/
def jsStableSort {α : Type} (gt : α → α → Bool) (l : List α) : List α :=
  l.foldl (fun acc x => jsSortInsert gt x acc) []

theorem mem_jsSortInsert {α : Type} (gt : α → α → Bool) (x y : α) (l : List α) :
    y ∈ jsSortInsert gt x l ↔ y = x ∨ y ∈ l := by
  induction l with
  | nil => simp [jsSortInsert]
  | cons z zs ih =>
    unfold jsSortInsert
    by_cases h : gt x z
    · simp [h, List.mem_cons]
      try tauto
    · simp [h, List.mem_cons, ih]
      try tauto

theorem mem_jsStableSort {α : Type} (gt : α → α → Bool) (l : List α) (y : α) :
    y ∈ jsStableSort gt l ↔ y ∈ l := by
  unfold jsStableSort
  suffices h : ∀ acc, y ∈ l.foldl (fun acc x => jsSortInsert gt x acc) acc ↔
      y ∈ acc ∨ y ∈ l by
    simpa using h []
  intro acc
  induction l generalizing acc with
  | nil => simp
  | cons x rest ih =>
    simp only [List.foldl_cons]
    rw [ih, mem_jsSortInsert, List.mem_cons]
    tauto

/-- One per-line query of `prosodicSearch`: dynamic WHERE filter, SELECT
DISTINCT over the selected tuples, ORDER BY (matching_lines DESC,
created_at DESC), LIMIT 20. If the dynamic WHERE clause ends up with no
conditions at all the loop `continue`s, contributing nothing. Each element
pairs the joined row with its `matching_lines` count. -/
def lineQuery (rhythmMode rhymeMode : String) (l : PLine011)
    (table : List JoinedRow) : List (JoinedRow × Nat) :=
  if syllCondApplies rhythmMode || rhymeCondApplies rhymeMode l then
    let matched := table.filter (rowMatches rhythmMode rhymeMode l)
    let rows := dedupKeepFirst [] (matched.map (fun r => (r, matchingLines matched r)))
    (jsStableSort (fun a b =>
      a.2 > b.2 || (a.2 == b.2 && a.1.created_at > b.1.created_at)) rows).take 20
  else []

/-- One result record of `prosodicSearch` (fields not needed by the claims
are omitted). -/
structure ProsodicHit where
  fragmentId : String
  rhymeSound : String
  prosodicScore : ℚ
  syllables : Int
deriving DecidableEq

/-- Embeds `prosodicSearch` from the part_011 retriever: per-line queries
accumulated in input-line order; the prosodic score is the row's
`matching_lines` count normalized by the number of input lines. -/
def prosodicSearch (lines : List PLine011) (table : List JoinedRow)
    (rhythm rhyming : Option String) : List ProsodicHit :=
  let rhythmMode := jsOrStr rhythm "ish"
  if rhythmMode = "no" then []
  else
    let rhymeMode := jsOrStr rhyming "ish"
    lines.foldl (fun acc l =>
      acc ++ (lineQuery rhythmMode rhymeMode l table).map (fun p =>
        ⟨p.1.fragment_id, p.1.end_rhyme_us, (p.2 : ℚ) / (lines.length : ℚ),
          p.1.syllables⟩)) []

theorem lineQuery_sound (rhythmMode rhymeMode : String) (l : PLine011)
    (table : List JoinedRow) (p : JoinedRow × Nat)
    (hp : p ∈ lineQuery rhythmMode rhymeMode l table) :
    rowMatches rhythmMode rhymeMode l p.1 = true := by
  unfold lineQuery at hp
  by_cases hc : (syllCondApplies rhythmMode || rhymeCondApplies rhymeMode l) = true
  · rw [if_pos hc] at hp
    have h1 := List.mem_of_mem_take hp
    rw [mem_jsStableSort, mem_dedupKeepFirst] at h1
    simp only [List.not_mem_nil, false_or, List.mem_map] at h1
    obtain ⟨r, hr, hpr⟩ := h1
    have : p.1 = r := by rw [← hpr]
    rw [this]
    exact (List.mem_filter.mp hr).2
  · rw [if_neg hc] at hp
    exact absurd hp (List.not_mem_nil p)

theorem prosodicSearch_single_line_hits (l : PLine011) (table : List JoinedRow)
    (rhythm rhyming : Option String) (hit : ProsodicHit)
    (hmem : hit ∈ prosodicSearch [l] table rhythm rhyming) :
    ∃ p ∈ lineQuery (jsOrStr rhythm "ish") (jsOrStr rhyming "ish") l table,
      hit.rhymeSound = p.1.end_rhyme_us := by
  unfold prosodicSearch at hmem
  by_cases hr : jsOrStr rhythm "ish" = "no"
  · rw [if_pos hr] at hmem
    exact absurd hmem (List.not_mem_nil hit)
  · rw [if_neg hr] at hmem
    simp only [List.foldl_cons, List.foldl_nil, List.nil_append,
      List.mem_map] at hmem
    obtain ⟨p, hp, hph⟩ := hmem
    exact ⟨p, hp, by rw [← hph]⟩

/-! ### Claim C7 -/

theorem queryExact_rhyme_invariant (table : List FragmentLineRow) (s : Int)
    (f : FragmentLineRow → String) :
    queryExact (table.map (fun r => { r with end_rhyme_us := f r })) s
      = queryExact table s := by
  unfold queryExact
  congr 1
  rw [List.filter_map, List.map_map]
  rfl

theorem queryBetween_rhyme_invariant (table : List FragmentLineRow) (lo hi : Int)
    (f : FragmentLineRow → String) :
    queryBetween (table.map (fun r => { r with end_rhyme_us := f r })) lo hi
      = queryBetween table lo hi := by
  unfold queryBetween
  congr 1
  rw [List.filter_map, List.map_map]
  rfl

theorem prosodicRetrieval_table_rhyme_invariant (pd : Option (List ProsodyLine))
    (table : List FragmentLineRow) (rhythm : String) (f : FragmentLineRow → String) :
    prosodicRetrieval pd (table.map (fun r => { r with end_rhyme_us := f r })) rhythm
      = prosodicRetrieval pd table rhythm := by
  unfold prosodicRetrieval
  simp only [queryExact_rhyme_invariant, queryBetween_rhyme_invariant]

theorem prosodicRetrieval_line_rhyme_invariant (lines : List ProsodyLine)
    (table : List FragmentLineRow) (rhythm : String) (g : ProsodyLine → Option String) :
    prosodicRetrieval (some (lines.map (fun l => { l with rhyme := g l }))) table rhythm
      = prosodicRetrieval (some lines) table rhythm := by
  by_cases hno : rhythm = "no"
  · subst hno; rfl
  · by_cases hyes : rhythm = "yes"
    · subst hyes
      have hdef1 : prosodicRetrieval
            (some (lines.map (fun l => { l with rhyme := g l }))) table "yes"
          = (lines.map (fun l => { l with rhyme := g l })).foldl
              (fun acc l => dedupKeepFirst acc (queryExact table l.syllables)) [] := rfl
      have hdef2 : prosodicRetrieval (some lines) table "yes"
          = lines.foldl
              (fun acc l => dedupKeepFirst acc (queryExact table l.syllables)) [] := rfl
      rw [hdef1, hdef2, List.foldl_map]
    · by_cases hish : rhythm = "ish"
      · subst hish
        have hdef1 : prosodicRetrieval
              (some (lines.map (fun l => { l with rhyme := g l }))) table "ish"
            = (lines.map (fun l => { l with rhyme := g l })).foldl
                (fun acc l => dedupKeepFirst acc
                  (queryBetween table (l.syllables - 2) (l.syllables + 2))) [] := rfl
        have hdef2 : prosodicRetrieval (some lines) table "ish"
            = lines.foldl
                (fun acc l => dedupKeepFirst acc
                  (queryBetween table (l.syllables - 2) (l.syllables + 2))) [] := rfl
        rw [hdef1, hdef2, List.foldl_map]
      · have hstep : ∀ ls : List ProsodyLine,
            prosodicRetrieval (some ls) table rhythm = [] := by
          intro ls
          have hdef : prosodicRetrieval (some ls) table rhythm =
              (if rhythm = "no" then []
               else if rhythm = "yes" then
                 ls.foldl (fun acc l => dedupKeepFirst acc (queryExact table l.syllables)) []
               else if rhythm = "ish" then
                 ls.foldl (fun acc l => dedupKeepFirst acc
                   (queryBetween table (l.syllables - 2) (l.syllables + 2))) []
               else []) := rfl
          rw [hdef, if_neg hno, if_neg hyes, if_neg hish]
        rw [hstep, hstep]

theorem prosodicSearch_strict_rhyme_sound (l : PLine011) (table : List JoinedRow)
    (rhythm rhyming : Option String) (tok : String)
    (hmode : jsOrStr rhyming "ish" = "yes") (hρ : l.rhymeSound = some tok)
    (hne : tok ≠ "") :
    ((prosodicSearch [l] table rhythm rhyming).all
      (fun hit => hit.rhymeSound == tok)) = true := by
  rw [List.all_eq_true]
  intro hit hmem
  obtain ⟨p, hp, heq⟩ := prosodicSearch_single_line_hits l table rhythm rhyming hit hmem
  have hm := lineQuery_sound (jsOrStr rhythm "ish") (jsOrStr rhyming "ish") l table p hp
  rw [hmode] at hm
  have happ : rhymeCondApplies "yes" l = true := by
    simp [rhymeCondApplies, jsTruthyStr, hρ, hne]
  unfold rowMatches at hm
  rw [Bool.and_eq_true] at hm
  have h2 := hm.2
  rw [if_pos happ] at h2
  simp only [show (("yes" : String) == "yes") = true from rfl, if_true, beq_iff_eq,
    hρ, Option.getD_some] at h2
  rw [heq, h2, beq_self_eq_true]

theorem prosodicSearch_loose_rhyme_sound (l : PLine011) (table : List JoinedRow)
    (rhythm rhyming : Option String) (tok : String)
    (hmode : jsOrStr rhyming "ish" = "ish") (hρ : l.rhymeSound = some tok)
    (hne : tok ≠ "") :
    ((prosodicSearch [l] table rhythm rhyming).all
      (fun hit => strContainsSub hit.rhymeSound (lastTwoUnits tok))) = true := by
  rw [List.all_eq_true]
  intro hit hmem
  obtain ⟨p, hp, heq⟩ := prosodicSearch_single_line_hits l table rhythm rhyming hit hmem
  have hm := lineQuery_sound (jsOrStr rhythm "ish") (jsOrStr rhyming "ish") l table p hp
  rw [hmode] at hm
  have happ : rhymeCondApplies "ish" l = true := by
    simp [rhymeCondApplies, jsTruthyStr, hρ, hne]
  unfold rowMatches at hm
  rw [Bool.and_eq_true] at hm
  have h2 := hm.2
  rw [if_pos happ] at h2
  simp only [show (("ish" : String) == "yes") = false from rfl, Bool.false_eq_true,
    if_false, hρ, Option.getD_some] at h2
  rw [heq]
  exact h2

theorem rowMatches_rhyme_off (rhythmMode : String) (l : PLine011) (r : JoinedRow) :
    rowMatches rhythmMode "no" l r =
      (if rhythmMode == "yes" then r.syllables == l.syllables
       else if rhythmMode == "ish" then
         decide (l.syllables - 2 ≤ r.syllables ∧ r.syllables ≤ l.syllables + 2)
       else true) := by
  unfold rowMatches rhymeCondApplies
  simp

/-- Claim C7 (counterexample): under a strict rhyme setting the claim
requires exact rhyme-token equality, but the structural retriever wired
into the generation pipeline performs no rhyme filtering at all: with input
rhyme token "OW" it still returns the fragment whose stored end-rhyme token
is "AY T" (the syllable counts match, and rhyme is ignored). -/
theorem prosodicRetrieval_no_rhyme_filter_cex :
    prosodicRetrieval (some [⟨5, "", some "OW"⟩]) [⟨"f1", 5, "AY T"⟩] "yes" = ["f1"] ∧
      ("AY T" : String) ≠ "OW" := by
  constructor
  · decide
  · decide

/-- Claim C7 (amended): the structural retriever wired into the pipeline
(`prosodicRetrieval` in retrieval.js) applies no rhyme filtering at any
setting — its result is invariant both under the stored end-rhyme tokens
and under the input lines' rhyme tokens. In the alternative retriever
module (`prosodicSearch`, part_011), rhyme filtering exists: with strict
rhyming every returned row's end-rhyme token equals the input line's token;
with loose rhyming every returned row's token contains the input token's
last two phonetic units as a substring (not necessarily as a suffix); with
rhyming off the row filter imposes only the syllable condition. -/
theorem structuralRhymeFiltering :
    (∀ (pd : Option (List ProsodyLine)) (table : List FragmentLineRow)
        (rhythm : String) (f : FragmentLineRow → String),
      prosodicRetrieval pd (table.map (fun r => { r with end_rhyme_us := f r })) rhythm
        = prosodicRetrieval pd table rhythm) ∧
      (∀ (lines : List ProsodyLine) (table : List FragmentLineRow)
          (rhythm : String) (g : ProsodyLine → Option String),
        prosodicRetrieval (some (lines.map (fun l => { l with rhyme := g l }))) table rhythm
          = prosodicRetrieval (some lines) table rhythm) ∧
      (∀ (l : PLine011) (table : List JoinedRow) (rhythm rhyming : Option String)
          (tok : String), jsOrStr rhyming "ish" = "yes" → l.rhymeSound = some tok →
        tok ≠ "" →
        ((prosodicSearch [l] table rhythm rhyming).all
          (fun hit => hit.rhymeSound == tok)) = true) ∧
      (∀ (l : PLine011) (table : List JoinedRow) (rhythm rhyming : Option String)
          (tok : String), jsOrStr rhyming "ish" = "ish" → l.rhymeSound = some tok →
        tok ≠ "" →
        ((prosodicSearch [l] table rhythm rhyming).all
          (fun hit => strContainsSub hit.rhymeSound (lastTwoUnits tok))) = true) ∧
      (∀ (rhythmMode : String) (l : PLine011) (r : JoinedRow),
        rowMatches rhythmMode "no" l r =
          (if rhythmMode == "yes" then r.syllables == l.syllables
           else if rhythmMode == "ish" then
             decide (l.syllables - 2 ≤ r.syllables ∧ r.syllables ≤ l.syllables + 2)
           else true)) :=
  ⟨prosodicRetrieval_table_rhyme_invariant,
   prosodicRetrieval_line_rhyme_invariant,
   fun l table rhythm rhyming tok h1 h2 h3 =>
     prosodicSearch_strict_rhyme_sound l table rhythm rhyming tok h1 h2 h3,
   fun l table rhythm rhyming tok h1 h2 h3 =>
     prosodicSearch_loose_rhyme_sound l table rhythm rhyming tok h1 h2 h3,
   rowMatches_rhyme_off⟩

/-- Witness for `structuralRhymeFiltering`: its strict-rhyme soundness
part applied to a one-line, one-row instance with matching tokens. -/
theorem structuralRhymeFiltering_witness :
    jsOrStr (some "yes") "ish" = "yes" ∧
      ((prosodicSearch [⟨5, none, some "AY T"⟩] [⟨"f1", 5, "AY T", 0⟩]
          (some "yes") (some "yes")).all
        (fun hit => hit.rhymeSound == "AY T")) = true :=
  ⟨by decide,
   structuralRhymeFiltering.2.2.1 ⟨5, none, some "AY T"⟩ [⟨"f1", 5, "AY T", 0⟩]
     (some "yes") (some "yes") "AY T" (by decide) rfl (by decide)⟩

/-! ### Rank merger, `netlify/functions/lib/retrieval.js` `combineAndRank`

The `scoreMap` (a JavaScript `Map` keyed by fragment id) is represented as
its entry list in insertion order; `Map.set` overwrites in place at an
existing key and appends otherwise, `Map.forEach` visits entries in
insertion order. The source reads `settings.rhythm` only, so the embedding
takes the rhythm setting directly. The database side is the `fragments`
metadata table (id, rhythmic); the `WHERE id IN (...)` query returns the
table rows whose id is a key of the map, in table order. -/

/-- One semantic result and also one final ranked entry (`{id, score}`). -/
structure SemResult where
  id : String
  score : ℚ
deriving DecidableEq

/-- One entry of the `scoreMap`. -/
structure RankEntry where
  id : String
  baseScore : ℚ
  totalScore : ℚ
  inProsodicResults : Bool
  isRhythmic : Bool
deriving DecidableEq

/-- One row of the `fragments` metadata table (`id`, `rhythmic`). -/
structure FragmentRow where
  id : String
  rhythmic : Bool
deriving DecidableEq

/-- First entry of the map with the given key (`Map.get`). -/
def findEntry (m : List RankEntry) (id : String) : Option RankEntry :=
  m.find? (fun e => e.id == id)

/-- JavaScript `Map.set`: overwrite at an existing key (keeping its
position), else append. -/
def mapSet (m : List RankEntry) (e : RankEntry) : List RankEntry :=
  if m.any (fun x => x.id == e.id) then
    m.map (fun x => if x.id == e.id then e else x)
  else m ++ [e]

/-- The first pass of `combineAndRank`: seed the map with the semantic
results (base score = total score = semantic similarity). -/
def buildSemMap (sem : List SemResult) : List RankEntry :=
  sem.foldl (fun m r => mapSet m ⟨r.id, r.score, r.score, false, false⟩) []

/-- The `scoreMap.forEach` pass: +0.3 for fragments that also appear in
the prosodic result set. -/
def markProsodic (pros : List String) (m : List RankEntry) : List RankEntry :=
  m.map (fun e =>
    if e.id ∈ pros then
      { e with inProsodicResults := true, totalScore := e.totalScore + 3/10 }
    else e)

/-- The pass adding prosodic-only fragments with the default base score
0.5 (plus the prosodic bonus 0.3 baked in). -/
def addProsodicOnly (pros : List String) (m : List RankEntry) : List RankEntry :=
  pros.foldl (fun m id =>
    if m.any (fun x => x.id == id) then m
    else m ++ [⟨id, 1/2, 1/2 + 3/10, true, false⟩]) m

/-- The metadata pass: for each returned `fragments` row whose id is in
the map, add +0.2 and set `isRhythmic` when the row is rhythmic and the
rhythm setting is 'yes'. -/
def applyRhythmicBonus (rhythm : String) (rows : List FragmentRow)
    (m : List RankEntry) : List RankEntry :=
  rows.foldl (fun m row =>
    if (m.any (fun x => x.id == row.id)) && row.rhythmic && (rhythm == "yes") then
      m.map (fun e =>
        if e.id == row.id then
          { e with isRhythmic := true, totalScore := e.totalScore + 1/5 }
        else e)
    else m) m

/-- The score map after the three score-building passes (the `scoreMap`
local just before the metadata query). -/
def scoreRows (sem : List SemResult) (pros : List String) : List RankEntry :=
  addProsodicOnly pros (markProsodic pros (buildSemMap sem))

/-- The score map after the metadata pass: the `WHERE id IN (...)` query
returns the `fragments` rows whose id is a key of the map, in table
order, and the bonus pass folds over them. -/
def rankMap (sem : List SemResult) (pros : List String) (rhythm : String)
    (table : List FragmentRow) : List RankEntry :=
  applyRhythmicBonus rhythm
    (table.filter (fun row => (scoreRows sem pros).any (fun x => x.id == row.id)))
    (scoreRows sem pros)

/-- Embeds `combineAndRank` from retrieval.js (success path; on a database error
the source falls back to `semanticResults.slice(0, 20)`, which is also
bounded by 20): build the score map, sort by total score descending
(stable, as mandated for `Array.prototype.sort`), truncate to 20, project
to `{id, score}`. -/
def combineAndRank (semanticResults : List SemResult) (prosodicResults : List String)
    (rhythm : String) (fragmentsTable : List FragmentRow) : List SemResult :=
  ((jsStableSort (fun a b => a.totalScore > b.totalScore)
      (rankMap semanticResults prosodicResults rhythm fragmentsTable)).take 20).map
    (fun e => ⟨e.id, e.totalScore⟩)

/-- The spec's scoring formula, corrected at the prosodic-only base: the
base is the fragment's semantic similarity when it occurs in the semantic
results and the default 0.5 otherwise; +0.3 when the fragment is in the
structural result set; +0.2 when its metadata row is present with
`rhythmic = true` and the rhythm setting is strict. -/
def specCombinedScore (sem : List SemResult) (pros : List String) (rhythm : String)
    (table : List FragmentRow) (id : String) : ℚ :=
  (match sem.find? (fun r => r.id == id) with
   | some r => r.score
   | none => 1/2) +
  (if id ∈ pros then (3/10 : ℚ) else 0) +
  (if (match table.find? (fun row => row.id == id) with
       | some row => row.rhythmic
       | none => false) && (rhythm == "yes") then (1/5 : ℚ) else 0)

/-! Map machinery lemmas. -/

theorem any_eq_findEntry_isSome (m : List RankEntry) (id : String) :
    m.any (fun x => x.id == id) = (findEntry m id).isSome := by
  induction m with
  | nil => rfl
  | cons x rest ih =>
    unfold findEntry at *
    rw [List.any_cons, List.find?_cons]
    cases h : (x.id == id) with
    | true => simp [h]
    | false => simp [h, ih]

theorem findEntry_append_single (m : List RankEntry) (e : RankEntry) (id : String) :
    findEntry (m ++ [e]) id =
      match findEntry m id with
      | some x => some x
      | none => if e.id = id then some e else none := by
  induction m with
  | nil =>
    unfold findEntry
    simp only [List.nil_append, List.find?_cons, List.find?_nil]
    by_cases he : e.id = id
    · simp [he]
    · simp [he, beq_eq_false_iff_ne.mpr he]
  | cons x rest ih =>
    unfold findEntry at *
    simp only [List.cons_append, List.find?_cons]
    cases h : (x.id == id) with
    | true => simp [h]
    | false => simpa [h] using ih

theorem findEntry_map_idpreserving (f : RankEntry → RankEntry)
    (hf : ∀ e, (f e).id = e.id) (m : List RankEntry) (id : String) :
    findEntry (m.map f) id = (findEntry m id).map f := by
  induction m with
  | nil => rfl
  | cons x rest ih =>
    unfold findEntry at *
    simp only [List.map_cons, List.find?_cons, hf x]
    cases h : (x.id == id) with
    | true => simp [h]
    | false => simp [h, ih]

theorem findEntry_mapSet_self (m : List RankEntry) (e : RankEntry) :
    findEntry (mapSet m e) e.id = some e := by
  unfold mapSet
  by_cases h : m.any (fun x => x.id == e.id) = true
  · rw [if_pos h]
    rw [any_eq_findEntry_isSome] at h
    induction m with
    | nil => simp [findEntry] at h
    | cons x rest ih =>
      unfold findEntry at *
      rw [List.find?_cons] at h
      simp only [List.map_cons, List.find?_cons]
      cases hx : (x.id == e.id) with
      | true => simp [hx]
      | false =>
        rw [hx] at h
        simp only [hx, Bool.false_eq_true, if_false]
        exact ih (by simpa using h)
  · rw [if_neg h]
    rw [findEntry_append_single]
    rw [any_eq_findEntry_isSome] at h
    have hnone : findEntry m e.id = none := by
      cases hf : findEntry m e.id with
      | none => rfl
      | some x => rw [hf] at h; simp at h
    rw [hnone]
    simp

theorem findEntry_mapSet_other (m : List RankEntry) (e : RankEntry) (id : String)
    (hne : e.id ≠ id) : findEntry (mapSet m e) id = findEntry m id := by
  unfold mapSet
  by_cases h : m.any (fun x => x.id == e.id) = true
  · rw [if_pos h]
    clear h
    induction m with
    | nil => rfl
    | cons x rest ih =>
      unfold findEntry at *
      simp only [List.map_cons, List.find?_cons]
      cases hx : (x.id == e.id) with
      | true =>
        have hxid : x.id = e.id := beq_iff_eq.mp hx
        have he : (e.id == id) = false := beq_eq_false_iff_ne.mpr hne
        have hxf : (x.id == id) = false := by
          rw [hxid]; exact he
        rw [if_pos rfl, he, hxf]
        exact ih
      | false =>
        simp only [hx, Bool.false_eq_true, if_false]
        cases hxi : (x.id == id) with
        | true => rfl
        | false => exact ih
  · rw [if_neg h, findEntry_append_single]
    cases hfind : findEntry m id with
    | some x => rfl
    | none => simp [hne]

/-! Stage characterizations of the score map. -/

theorem semFold_find (sem : List SemResult) (m : List RankEntry) (id : String)
    (hnd : (sem.map (fun r => r.id)).Nodup) :
    findEntry (sem.foldl (fun m r => mapSet m ⟨r.id, r.score, r.score, false, false⟩) m) id =
      match sem.find? (fun r => r.id == id) with
      | some r => some ⟨r.id, r.score, r.score, false, false⟩
      | none => findEntry m id := by
  induction sem generalizing m with
  | nil => rfl
  | cons r rest ih =>
    simp only [List.map_cons, List.nodup_cons] at hnd
    obtain ⟨hnotin, hnd'⟩ := hnd
    simp only [List.foldl_cons, List.find?_cons]
    cases hri : (r.id == id) with
    | true =>
      have hrid : r.id = id := beq_iff_eq.mp hri
      have hnone : rest.find? (fun r => r.id == id) = none := by
        rw [List.find?_eq_none]
        intro r' hr' hb
        apply hnotin
        rw [hrid]
        rw [← beq_iff_eq.mp hb]
        exact List.mem_map_of_mem _ hr'
      rw [ih _ hnd', hnone]
      rw [← hrid]
      exact findEntry_mapSet_self m _
    | false =>
      rw [ih _ hnd']
      cases hfind : rest.find? (fun r => r.id == id) with
      | some r' => rfl
      | none =>
        exact findEntry_mapSet_other m _ id
          (by simpa using (beq_eq_false_iff_ne.mp hri))

theorem markProsodic_find (pros : List String) (m : List RankEntry) (id : String) :
    findEntry (markProsodic pros m) id = (findEntry m id).map (fun e =>
      if e.id ∈ pros then
        { e with inProsodicResults := true, totalScore := e.totalScore + 3/10 }
      else e) := by
  unfold markProsodic
  exact findEntry_map_idpreserving _
    (fun e => by by_cases h : e.id ∈ pros <;> simp [h]) m id

theorem addProsodicOnly_find (pros : List String) (m : List RankEntry) (id : String) :
    findEntry (addProsodicOnly pros m) id =
      match findEntry m id with
      | some e => some e
      | none => if id ∈ pros then some ⟨id, 1/2, 1/2 + 3/10, true, false⟩ else none := by
  unfold addProsodicOnly
  induction pros generalizing m with
  | nil =>
    cases hf : findEntry m id with
    | some e => simpa using hf
    | none => simp [hf]
  | cons q rest ih =>
    simp only [List.foldl_cons]
    by_cases hq : m.any (fun x => x.id == q) = true
    · rw [if_pos hq, ih]
      cases hf : findEntry m id with
      | some e => rfl
      | none =>
        have hq' : (findEntry m q).isSome = true := by
          rw [← any_eq_findEntry_isSome]; exact hq
        have hne : id ≠ q := by
          intro hh
          subst hh
          rw [hf] at hq'
          simp at hq'
        simp [List.mem_cons, hne]
    · rw [if_neg hq, ih]
      have hq' : findEntry m q = none := by
        rw [any_eq_findEntry_isSome] at hq
        cases hfq : findEntry m q with
        | none => rfl
        | some x => rw [hfq] at hq; simp at hq
      by_cases hiq : id = q
      · subst hiq
        have happ : findEntry (m ++ [⟨id, 1/2, 1/2 + 3/10, true, false⟩]) id
            = some ⟨id, 1/2, 1/2 + 3/10, true, false⟩ := by
          rw [findEntry_append_single, hq']
          simp
        rw [happ, hq']
        simp [List.mem_cons]
      · have happ : findEntry (m ++ [⟨q, 1/2, 1/2 + 3/10, true, false⟩]) id
            = findEntry m id := by
          rw [findEntry_append_single]
          cases hf : findEntry m id with
          | some e => rfl
          | none =>
            rw [if_neg (fun hh : q = id => hiq hh.symm)]
        rw [happ]
        cases hf : findEntry m id with
        | some e => rfl
        | none => simp [List.mem_cons, hiq]

theorem findEntry_bumpMap (m : List RankEntry) (rid : String) (id : String) :
    findEntry (m.map (fun e =>
        if e.id == rid then
          { e with isRhythmic := true, totalScore := e.totalScore + 1/5 }
        else e)) id
      = (findEntry m id).map (fun e =>
          if e.id == rid then
            { e with isRhythmic := true, totalScore := e.totalScore + 1/5 }
          else e) :=
  findEntry_map_idpreserving _
    (fun e => by by_cases h : (e.id == rid) = true <;> simp [h]) m id

theorem findEntry_some_id {m : List RankEntry} {id : String} {e : RankEntry}
    (h : findEntry m id = some e) : e.id = id := by
  have h2 := @List.find?_some RankEntry (fun x => x.id == id) e m h
  exact beq_iff_eq.mp h2

theorem applyRhythmicBonus_find (rhythm : String) (rows : List FragmentRow)
    (m : List RankEntry) (id : String)
    (hnd : (rows.map (fun r => r.id)).Nodup) :
    findEntry (applyRhythmicBonus rhythm rows m) id =
      (findEntry m id).map (fun e =>
        if (match rows.find? (fun row => row.id == id) with
            | some row => row.rhythmic
            | none => false) && (rhythm == "yes") then
          { e with isRhythmic := true, totalScore := e.totalScore + 1/5 }
        else e) := by
  unfold applyRhythmicBonus
  induction rows generalizing m with
  | nil =>
    cases hf : findEntry m id with
    | some e => simp [hf]
    | none => simp [hf]
  | cons row rest ih =>
    simp only [List.map_cons, List.nodup_cons] at hnd
    obtain ⟨hnotin, hnd'⟩ := hnd
    simp only [List.foldl_cons, List.find?_cons]
    rcases Bool.eq_false_or_eq_true (row.id == id) with hri | hri
    · -- the head row is the queried id
      simp only [hri]
      have hrid : row.id = id := beq_iff_eq.mp hri
      have hnone : rest.find? (fun r => r.id == id) = none := by
        rw [List.find?_eq_none]
        intro r' hr' hb
        apply hnotin
        rw [hrid, ← beq_iff_eq.mp hb]
        exact List.mem_map_of_mem _ hr'
      rw [ih _ hnd', hnone]
      by_cases hg : ((m.any (fun x => x.id == row.id)) && row.rhythmic
          && (rhythm == "yes")) = true
      · rw [if_pos hg]
        rw [findEntry_bumpMap]
        have hg2 : (row.rhythmic && (rhythm == "yes")) = true := by
          rw [Bool.and_assoc, Bool.and_eq_true] at hg
          exact hg.2
        cases hf : findEntry m id with
        | none => simp
        | some e =>
          have heid : e.id = id := findEntry_some_id hf
          have heq : (e.id == row.id) = true := by
            rw [beq_iff_eq, heid, hrid]
          simp [heq, hg2]
          intro hh
          exact absurd (beq_iff_eq.mp heq) hh
      · rw [if_neg hg]
        cases hf : findEntry m id with
        | none => simp
        | some e =>
          have hany : m.any (fun x => x.id == row.id) = true := by
            rw [any_eq_findEntry_isSome, hrid, hf]
            rfl
          have hg2 : (row.rhythmic && (rhythm == "yes")) = false := by
            cases h2 : (row.rhythmic && (rhythm == "yes")) with
            | false => rfl
            | true =>
              exact absurd (by rw [Bool.and_assoc, hany, h2]; rfl) hg
          simp [hg2]
    · -- the head row is not the queried id
      simp only [hri]
      have hstep : findEntry (if ((m.any (fun x => x.id == row.id)) && row.rhythmic
            && (rhythm == "yes")) = true then
            m.map (fun e =>
              if e.id == row.id then
                { e with isRhythmic := true, totalScore := e.totalScore + 1/5 }
              else e)
          else m) id = findEntry m id := by
        by_cases hg : ((m.any (fun x => x.id == row.id)) && row.rhythmic
            && (rhythm == "yes")) = true
        · rw [if_pos hg, findEntry_bumpMap]
          cases hf : findEntry m id with
          | none => rfl
          | some e =>
            have heid : e.id = id := findEntry_some_id hf
            have heq : (e.id == row.id) = false := by
              rw [beq_eq_false_iff_ne, heid]
              intro hh
              rw [← hh] at hri
              simp at hri
            simp [heq]
            intro hh
            exact absurd hh (beq_eq_false_iff_ne.mp heq)
        · rw [if_neg hg]
      rw [ih _ hnd']
      rw [hstep]

/-! Key lists and no-duplicate-keys invariants of the score map. -/

/-- The key list of the score map. -/
def entryKeys (m : List RankEntry) : List String := m.map (fun e => e.id)

theorem entryKeys_map_idpreserving (f : RankEntry → RankEntry)
    (hf : ∀ e, (f e).id = e.id) (m : List RankEntry) :
    entryKeys (m.map f) = entryKeys m := by
  unfold entryKeys
  rw [List.map_map]
  exact List.map_congr_left (fun e _ => hf e)

theorem entryKeys_nodup_append_new (m : List RankEntry) (e : RankEntry)
    (h : (entryKeys m).Nodup) (hnot : ¬ m.any (fun x => x.id == e.id) = true) :
    (entryKeys (m ++ [e])).Nodup := by
  unfold entryKeys at *
  rw [List.map_append, List.nodup_append]
  refine ⟨h, List.nodup_singleton _, ?_⟩
  intro x hx hx2
  simp only [List.map_cons, List.map_nil, List.mem_singleton] at hx2
  subst hx2
  obtain ⟨y, hy, hye⟩ := List.mem_map.mp hx
  exact hnot (List.any_eq_true.mpr ⟨y, hy, by rw [beq_iff_eq]; exact hye⟩)

theorem entryKeys_nodup_mapSet (m : List RankEntry) (e : RankEntry)
    (h : (entryKeys m).Nodup) : (entryKeys (mapSet m e)).Nodup := by
  unfold mapSet
  by_cases hq : m.any (fun x => x.id == e.id) = true
  · rw [if_pos hq]
    have hkeys : entryKeys (m.map (fun x => if x.id == e.id then e else x))
        = entryKeys m := by
      apply entryKeys_map_idpreserving
      intro x
      by_cases hx : (x.id == e.id) = true
      · simp [hx, beq_iff_eq.mp hx]
      · simp [hx]
    rw [hkeys]
    exact h
  · rw [if_neg hq]
    exact entryKeys_nodup_append_new m e h hq

theorem entryKeys_nodup_buildSemMap (sem : List SemResult) :
    (entryKeys (buildSemMap sem)).Nodup := by
  unfold buildSemMap
  suffices h : ∀ m : List RankEntry, (entryKeys m).Nodup →
      (entryKeys (sem.foldl
        (fun m r => mapSet m ⟨r.id, r.score, r.score, false, false⟩) m)).Nodup by
    exact h [] (by simp [entryKeys])
  intro m hm
  induction sem generalizing m with
  | nil => simpa using hm
  | cons r rest ih =>
    simp only [List.foldl_cons]
    exact ih _ (entryKeys_nodup_mapSet m _ hm)

theorem entryKeys_markProsodic (pros : List String) (m : List RankEntry) :
    entryKeys (markProsodic pros m) = entryKeys m := by
  unfold markProsodic
  apply entryKeys_map_idpreserving
  intro e
  by_cases h : e.id ∈ pros <;> simp [h]

theorem entryKeys_nodup_addProsodicOnly (pros : List String) (m : List RankEntry)
    (h : (entryKeys m).Nodup) : (entryKeys (addProsodicOnly pros m)).Nodup := by
  unfold addProsodicOnly
  induction pros generalizing m with
  | nil => simpa using h
  | cons q rest ih =>
    simp only [List.foldl_cons]
    by_cases hq : m.any (fun x => x.id == q) = true
    · rw [if_pos hq]
      exact ih m h
    · rw [if_neg hq]
      exact ih _ (entryKeys_nodup_append_new m _ h hq)

theorem entryKeys_applyRhythmicBonus (rhythm : String) (rows : List FragmentRow)
    (m : List RankEntry) :
    entryKeys (applyRhythmicBonus rhythm rows m) = entryKeys m := by
  unfold applyRhythmicBonus
  induction rows generalizing m with
  | nil => rfl
  | cons row rest ih =>
    simp only [List.foldl_cons]
    rw [ih]
    by_cases hg : ((m.any (fun x => x.id == row.id)) && row.rhythmic
        && (rhythm == "yes")) = true
    · rw [if_pos hg]
      apply entryKeys_map_idpreserving
      intro e
      by_cases hx : (e.id == row.id) = true <;> simp [hx]
    · rw [if_neg hg]

theorem entryKeys_nodup_rankMap (sem : List SemResult) (pros : List String)
    (rhythm : String) (table : List FragmentRow) :
    (entryKeys (rankMap sem pros rhythm table)).Nodup := by
  unfold rankMap
  rw [entryKeys_applyRhythmicBonus]
  unfold scoreRows
  apply entryKeys_nodup_addProsodicOnly
  rw [entryKeys_markProsodic]
  exact entryKeys_nodup_buildSemMap sem

theorem findEntry_of_mem (m : List RankEntry) (e : RankEntry)
    (hmem : e ∈ m) (hnd : (entryKeys m).Nodup) : findEntry m e.id = some e := by
  induction m with
  | nil => cases hmem
  | cons x rest ih =>
    unfold findEntry
    rw [List.find?_cons]
    unfold entryKeys at hnd
    simp only [List.map_cons, List.nodup_cons] at hnd
    rcases List.mem_cons.mp hmem with rfl | hmem'
    · simp
    · have hx : (x.id == e.id) = false := by
        rw [beq_eq_false_iff_ne]
        intro hh
        apply hnd.1
        rw [hh]
        exact List.mem_map_of_mem _ hmem'
      rw [hx]
      exact ih hmem' hnd.2

theorem rows_find_eq (table : List FragmentRow) (m : List RankEntry) (id : String)
    (hid : m.any (fun x => x.id == id) = true) :
    (table.filter (fun row => m.any (fun x => x.id == row.id))).find?
        (fun row => row.id == id)
      = table.find? (fun row => row.id == id) := by
  induction table with
  | nil => rfl
  | cons row rest ih =>
    rw [List.filter_cons]
    by_cases hq : (m.any (fun x => x.id == row.id)) = true
    · rw [if_pos hq]
      rw [List.find?_cons, List.find?_cons]
      rcases Bool.eq_false_or_eq_true (row.id == id) with hri | hri
      · simp only [hri]
      · simp only [hri]
        exact ih
    · rw [if_neg hq]
      rw [List.find?_cons]
      rcases Bool.eq_false_or_eq_true (row.id == id) with hri | hri
      · exact absurd hid (by rwa [beq_iff_eq.mp hri] at hq)
      · simp only [hri]
        exact ih

/-! ### Claims C1 and C8 -/

/-- Claim C1 (amended): for every fragment in the merged result, its
combined score equals its semantic similarity when it occurs in the
semantic results, or the default base 0.5 when it does not (this is where
the claim as stated fails: the base is 0.5, not 0), plus 0.3 if the
fragment appears in the structural result set, plus 0.2 if its metadata
row is present with `rhythmic = true` (the stored `hasProsody` flag) and
the rhythm setting is strict ('yes'). The no-duplicate hypotheses state
that the semantic result ids and the metadata table ids are unique, as a
vector-index result set and a primary-keyed table are. -/
theorem combineAndRank_score_formula (sem : List SemResult) (pros : List String)
    (rhythm : String) (table : List FragmentRow)
    (hsem : (sem.map (fun r => r.id)).Nodup)
    (htab : (table.map (fun r => r.id)).Nodup) :
    ∀ e ∈ combineAndRank sem pros rhythm table,
      e.score = specCombinedScore sem pros rhythm table e.id := by
  intro e hmem
  unfold combineAndRank at hmem
  simp only [List.mem_map] at hmem
  obtain ⟨x, hx, hxe⟩ := hmem
  have hx4 : x ∈ rankMap sem pros rhythm table := by
    have h1 := List.mem_of_mem_take hx
    rwa [mem_jsStableSort] at h1
  have hfind4 : findEntry (rankMap sem pros rhythm table) x.id = some x :=
    findEntry_of_mem _ x hx4 (entryKeys_nodup_rankMap sem pros rhythm table)
  have hrows_nd : ((table.filter (fun row => (scoreRows sem pros).any
      (fun y => y.id == row.id))).map (fun r => r.id)).Nodup :=
    List.Nodup.sublist (List.Sublist.map _ (List.filter_sublist table)) htab
  unfold rankMap at hfind4
  rw [applyRhythmicBonus_find _ _ _ _ hrows_nd] at hfind4
  have hanyScore : (scoreRows sem pros).any (fun y => y.id == x.id) = true := by
    rw [any_eq_findEntry_isSome]
    cases hfs : findEntry (scoreRows sem pros) x.id with
    | none => rw [hfs] at hfind4; simp at hfind4
    | some e2 => rfl
  rw [rows_find_eq table (scoreRows sem pros) x.id hanyScore] at hfind4
  unfold scoreRows at hfind4
  rw [addProsodicOnly_find, markProsodic_find] at hfind4
  have hbuild : findEntry (buildSemMap sem) x.id =
      match sem.find? (fun r => r.id == x.id) with
      | some r => some ⟨r.id, r.score, r.score, false, false⟩
      | none => none := semFold_find sem [] x.id hsem
  rw [hbuild] at hfind4
  have he_score : e.score = x.totalScore := by rw [← hxe]
  have he_id : e.id = x.id := by rw [← hxe]
  rw [he_score, he_id]
  unfold specCombinedScore
  cases hsf : sem.find? (fun r => r.id == x.id) with
  | some r =>
    have hr_id : r.id = x.id :=
      beq_iff_eq.mp (@List.find?_some SemResult (fun r => r.id == x.id) r sem hsf)
    rw [hsf] at hfind4
    simp only at hfind4 ⊢
    rw [hr_id] at hfind4
    by_cases hp : x.id ∈ pros
    · simp only [if_pos hp] at hfind4 ⊢
      by_cases hb : ((match table.find? (fun row => row.id == x.id) with
          | some row => row.rhythmic
          | none => false) && (rhythm == "yes")) = true
      · simp only [if_pos hb] at hfind4 ⊢
        have hts := congrArg RankEntry.totalScore (Option.some.inj hfind4)
        simp only at hts
        rw [← hts]
        try simp [hp]
        try ring
      · simp only [if_neg hb] at hfind4 ⊢
        have hts := congrArg RankEntry.totalScore (Option.some.inj hfind4)
        simp only at hts
        rw [← hts]
        try simp [hp]
        try ring
    · simp only [if_neg hp] at hfind4 ⊢
      by_cases hb : ((match table.find? (fun row => row.id == x.id) with
          | some row => row.rhythmic
          | none => false) && (rhythm == "yes")) = true
      · simp only [if_pos hb] at hfind4 ⊢
        have hts := congrArg RankEntry.totalScore (Option.some.inj hfind4)
        simp only at hts
        rw [← hts]
        try simp [hp]
        try ring
      · simp only [if_neg hb] at hfind4 ⊢
        have hts := congrArg RankEntry.totalScore (Option.some.inj hfind4)
        simp only at hts
        rw [← hts]
        try simp [hp]
        try ring
  | none =>
    rw [hsf] at hfind4
    simp only at hfind4 ⊢
    by_cases hp : x.id ∈ pros
    · simp only [if_pos hp] at hfind4 ⊢
      by_cases hb : ((match table.find? (fun row => row.id == x.id) with
          | some row => row.rhythmic
          | none => false) && (rhythm == "yes")) = true
      · simp only [if_pos hb] at hfind4 ⊢
        have hts := congrArg RankEntry.totalScore (Option.some.inj hfind4)
        simp only at hts
        rw [← hts]
        try simp [hp]
        try ring
      · simp only [if_neg hb] at hfind4 ⊢
        have hts := congrArg RankEntry.totalScore (Option.some.inj hfind4)
        simp only at hts
        rw [← hts]
        try simp [hp]
        try ring
    · simp only [if_neg hp] at hfind4
      simp at hfind4

/-- Witness for `combineAndRank_score_formula` at a one-semantic-result,
one-structural-result, one-metadata-row instance. -/
theorem combineAndRank_score_formula_witness :
    ((([⟨"a", 1/2⟩] : List SemResult).map (fun r => r.id)).Nodup ∧
        (([⟨"b", true⟩] : List FragmentRow).map (fun r => r.id)).Nodup) ∧
      ∀ e ∈ combineAndRank [⟨"a", 1/2⟩] ["b"] "yes" [⟨"b", true⟩],
        e.score = specCombinedScore [⟨"a", 1/2⟩] ["b"] "yes" [⟨"b", true⟩] e.id :=
  ⟨⟨by decide, by decide⟩,
   combineAndRank_score_formula [⟨"a", 1/2⟩] ["b"] "yes" [⟨"b", true⟩]
     (by decide) (by decide)⟩

/-- Claim C1 (counterexample): a fragment absent from the semantic results
does not start from score 0. With no semantic results, the single
structural fragment "a" is scored 0.5 + 0.3 = 0.8, while the claim's
formula (semantic similarity taken as 0, plus the structural bonus) gives
0.3. -/
theorem combineAndRank_prosodic_base_cex :
    combineAndRank [] ["a"] "no" [] = [⟨"a", 1/2 + 3/10⟩] ∧
      (1/2 + 3/10 : ℚ) ≠ 0 + 3/10 := by
  constructor
  · norm_num [combineAndRank, rankMap, scoreRows, buildSemMap, markProsodic,
      addProsodicOnly, applyRhythmicBonus, jsStableSort, jsSortInsert, mapSet]
  · norm_num

/-- Claim C8 (amended): the rank merger never returns more than 20
results. (Order-independence fails: see the counterexample.) -/
theorem combineAndRank_length_le (sem : List SemResult) (pros : List String)
    (rhythm : String) (table : List FragmentRow) :
    (combineAndRank sem pros rhythm table).length ≤ 20 := by
  unfold combineAndRank
  rw [List.length_map, List.length_take]
  exact min_le_left _ _

/-- Claim C8 (counterexample): the merger is not order-independent in its
inputs. Two semantic results with equal scores keep their input order
(the mandated-stable sort breaks ties by map-insertion order, not by
fragment recency), so presenting the same set in the two orders yields
two different ranked outputs. -/
theorem combineAndRank_order_dependent_cex :
    combineAndRank [⟨"a", 1/2⟩, ⟨"b", 1/2⟩] [] "no" []
        = [⟨"a", 1/2⟩, ⟨"b", 1/2⟩] ∧
      combineAndRank [⟨"b", 1/2⟩, ⟨"a", 1/2⟩] [] "no" []
        = [⟨"b", 1/2⟩, ⟨"a", 1/2⟩] ∧
      ([⟨"a", 1/2⟩, ⟨"b", 1/2⟩] : List SemResult) ≠ [⟨"b", 1/2⟩, ⟨"a", 1/2⟩] := by
  have hab : ("a" : String) ≠ "b" := by decide
  have hba : ("b" : String) ≠ "a" := by decide
  refine ⟨?_, ?_, ?_⟩
  · norm_num [combineAndRank, rankMap, scoreRows, buildSemMap, markProsodic,
      addProsodicOnly, applyRhythmicBonus, jsStableSort, jsSortInsert, mapSet,
      decide_eq_true_eq, hab, hba]
  · norm_num [combineAndRank, rankMap, scoreRows, buildSemMap, markProsodic,
      addProsodicOnly, applyRhythmicBonus, jsStableSort, jsSortInsert, mapSet,
      decide_eq_true_eq, hab, hba]
  · intro h
    have := List.head_eq_of_cons_eq h
    simp at this

/-! ### Request validation and handler, `generate.js`

`validateRequest` and the handler's settings normalization are embedded
with JavaScript truthiness made explicit: a missing field and (for
strings) the empty string, and (for numbers) 0, are falsy. Numbers are
modelled as integers, so the `Number.isInteger` check always passes. The
handler simulation records which pipeline stages run: retrieval, the
generation call, and the strict output-validation/regeneration step. -/

/-- The raw `body.settings` object (all fields optional). -/
structure RawSettings where
  religiosity : Option String
  rhythm : Option String
  rhyming : Option String
  meaning : Option String
  theme : Option String
  steer : Option String
deriving DecidableEq

/-- The parsed request body. `feedbackPresent` is the truthiness of
`body.feedback`. -/
structure RequestBody where
  input : Option String
  settings : Option RawSettings
  iteration : Option Int
  feedbackPresent : Bool
deriving DecidableEq

/-- A valid strictness value (`'no' | 'ish' | 'yes'`). -/
def validValue (s : String) : Bool := s == "no" || s == "ish" || s == "yes"

/-- The per-setting and iteration/feedback checks of `validateRequest`,
in source order. -/
def validateSettingsChecks (b : RequestBody) (s : RawSettings) : Option (String × Nat) :=
  if jsTruthyStr s.religiosity && !validValue (s.religiosity.getD "") then
          some ("religiosity must be \x22no\x22, \x22ish\x22, or \x22yes\x22", 400)
        else if jsTruthyStr s.rhythm && !validValue (s.rhythm.getD "") then
          some ("rhythm must be \x22no\x22, \x22ish\x22, or \x22yes\x22", 400)
        else if jsTruthyStr s.rhyming && !validValue (s.rhyming.getD "") then
          some ("rhyming must be \x22no\x22, \x22ish\x22, or \x22yes\x22", 400)
        else if jsTruthyStr s.meaning && !validValue (s.meaning.getD "") then
          some ("meaning must be \x22no\x22, \x22ish\x22, or \x22yes\x22", 400)
        else if jsTruthyInt b.iteration && b.iteration.getD 0 < 1 then
          some ("iteration must be a positive integer", 400)
        else if jsTruthyInt b.iteration && b.iteration.getD 0 > 1
            && !b.feedbackPresent then
          some ("feedback is required for iteration 2+", 400)
        else none

/-- The checks `validateRequest` runs on a present body, in source
order. -/
def validateRequestBody (b : RequestBody) : Option (String × Nat) :=
  if !(jsTruthyStr b.input) || jsTrim (b.input.getD "") = "" then
    some ("Input verse is required and must be a non-empty string", 400)
  else
    match b.settings with
    | none => some ("Settings object is required", 400)
    | some s => validateSettingsChecks b s

/-- Embeds `validateRequest` from generate.js: returns the error message and
HTTP status of the first failing check, or `none` for a valid body. -/
def validateRequest (body : Option RequestBody) : Option (String × Nat) :=
  match body with
  | none => some ("Request body is required", 400)
  | some b => validateRequestBody b

/-- The normalized settings used by the pipeline. -/
structure Settings where
  religiosity : String
  rhythm : String
  rhyming : String
  meaning : String
  theme : String
  steer : String
deriving DecidableEq

/-- The handler's settings normalization (step between validation and the
pipeline): fixed defaults for omitted (or falsy) values, lowercasing of
the four strictness values. -/
def normalizeSettings (s : RawSettings) : Settings :=
  ⟨lowerStr (jsOrStr s.religiosity "ish"),
   lowerStr (jsOrStr s.rhythm "yes"),
   lowerStr (jsOrStr s.rhyming "ish"),
   lowerStr (jsOrStr s.meaning "yes"),
   jsOrStr s.theme "Let me tell you a story",
   jsOrStr s.steer ""⟩

/-- The observable outcome of one handler invocation: HTTP status and
which pipeline stages ran. -/
structure HandlerTrace where
  statusCode : Nat
  retrievalCalled : Bool
  generationCalled : Bool
  regenerationRan : Bool
  settingsUsed : Option Settings
deriving DecidableEq

/-- The handler skeleton from generate.js: method check, body validation
(short-circuiting before any pipeline stage), settings normalization,
then the pipeline — retrieval, generation, and (only under a strict
rhythm or rhyming setting) the output-validation/regeneration step. -/
def handlerSim (httpMethod : String) (body : Option RequestBody) : HandlerTrace :=
  if httpMethod ≠ "POST" then ⟨405, false, false, false, none⟩
  else
    match validateRequest body with
    | some err => ⟨err.2, false, false, false, none⟩
    | none =>
      match body with
      | none => ⟨400, false, false, false, none⟩
      | some b =>
        match b.settings with
        | none => ⟨400, false, false, false, none⟩
        | some raw =>
          let settings := normalizeSettings raw
          ⟨200, true, true,
            settings.rhythm == "yes" || settings.rhyming == "yes",
            some settings⟩

/-! ### Claim C9 -/

theorem validateRequest_code_400 (body : Option RequestBody) (err : String × Nat)
    (h : validateRequest body = some err) : err.2 = 400 := by
  cases body with
  | none => cases h; rfl
  | some b =>
    replace h : validateRequestBody b = some err := h
    unfold validateRequestBody at h
    by_cases h1 : (!(jsTruthyStr b.input) || jsTrim (b.input.getD "") = "") = true
    · rw [if_pos h1] at h; cases h; rfl
    · rw [if_neg h1] at h
      cases hs : b.settings with
      | none => rw [hs] at h; cases h; rfl
      | some s =>
        rw [hs] at h
        replace h : validateSettingsChecks b s = some err := h
        unfold validateSettingsChecks at h
        by_cases h2 : (jsTruthyStr s.religiosity && !validValue (s.religiosity.getD "")) = true
        · rw [if_pos h2] at h; cases h; rfl
        · rw [if_neg h2] at h
          by_cases h3 : (jsTruthyStr s.rhythm && !validValue (s.rhythm.getD "")) = true
          · rw [if_pos h3] at h; cases h; rfl
          · rw [if_neg h3] at h
            by_cases h4 : (jsTruthyStr s.rhyming && !validValue (s.rhyming.getD "")) = true
            · rw [if_pos h4] at h; cases h; rfl
            · rw [if_neg h4] at h
              by_cases h5 : (jsTruthyStr s.meaning && !validValue (s.meaning.getD "")) = true
              · rw [if_pos h5] at h; cases h; rfl
              · rw [if_neg h5] at h
                by_cases h6 : (jsTruthyInt b.iteration && b.iteration.getD 0 < 1) = true
                · rw [if_pos h6] at h; cases h; rfl
                · rw [if_neg h6] at h
                  by_cases h7 : (jsTruthyInt b.iteration && b.iteration.getD 0 > 1
                      && !b.feedbackPresent) = true
                  · rw [if_pos h7] at h; cases h; rfl
                  · rw [if_neg h7] at h; cases h

theorem validateRequest_missing_feedback (b : RequestBody) (n : Int)
    (hiter : b.iteration = some n) (hgt : 1 < n) (hfb : b.feedbackPresent = false) :
    validateRequest (some b) ≠ none := by
  intro h
  replace h : validateRequestBody b = none := h
  unfold validateRequestBody at h
  by_cases h1 : (!(jsTruthyStr b.input) || jsTrim (b.input.getD "") = "") = true
  · rw [if_pos h1] at h; cases h
  · rw [if_neg h1] at h
    cases hs : b.settings with
    | none => rw [hs] at h; cases h
    | some s =>
      rw [hs] at h
      replace h : validateSettingsChecks b s = none := h
      unfold validateSettingsChecks at h
      by_cases h2 : (jsTruthyStr s.religiosity && !validValue (s.religiosity.getD "")) = true
      · rw [if_pos h2] at h; cases h
      · rw [if_neg h2] at h
        by_cases h3 : (jsTruthyStr s.rhythm && !validValue (s.rhythm.getD "")) = true
        · rw [if_pos h3] at h; cases h
        · rw [if_neg h3] at h
          by_cases h4 : (jsTruthyStr s.rhyming && !validValue (s.rhyming.getD "")) = true
          · rw [if_pos h4] at h; cases h
          · rw [if_neg h4] at h
            by_cases h5 : (jsTruthyStr s.meaning && !validValue (s.meaning.getD "")) = true
            · rw [if_pos h5] at h; cases h
            · rw [if_neg h5] at h
              by_cases h6 : (jsTruthyInt b.iteration && b.iteration.getD 0 < 1) = true
              · rw [if_pos h6] at h; cases h
              · rw [if_neg h6] at h
                have h7 : (jsTruthyInt b.iteration && b.iteration.getD 0 > 1
                    && !b.feedbackPresent) = true := by
                  rw [hiter, hfb]
                  simp [jsTruthyInt]
                  constructor
                  · intro hh; omega
                  · omega
                rw [if_pos h7] at h
                cases h

/-- Claim C9 (confirmed): a POST request with iteration greater than 1
and no feedback is rejected with a 400 input-validation error before any
retrieval or generation call is made. -/
theorem handler_rejects_missing_feedback (b : RequestBody) (n : Int)
    (hiter : b.iteration = some n) (hgt : 1 < n) (hfb : b.feedbackPresent = false) :
    (handlerSim "POST" (some b)).statusCode = 400 ∧
      (handlerSim "POST" (some b)).retrievalCalled = false ∧
      (handlerSim "POST" (some b)).generationCalled = false := by
  have hne := validateRequest_missing_feedback b n hiter hgt hfb
  unfold handlerSim
  rw [if_neg (by simp)]
  cases hv : validateRequest (some b) with
  | none => exact absurd hv hne
  | some err =>
    have h400 := validateRequest_code_400 (some b) err hv
    exact ⟨h400, rfl, rfl⟩

/-- Witness for `handler_rejects_missing_feedback`: iteration 2, no
feedback. -/
theorem handler_rejects_missing_feedback_witness :
    (handlerSim "POST" (some ⟨some "hello", some ⟨none, none, none, none, none, none⟩,
        some 2, false⟩)).statusCode = 400 ∧
      (handlerSim "POST" (some ⟨some "hello", some ⟨none, none, none, none, none, none⟩,
        some 2, false⟩)).retrievalCalled = false ∧
      (handlerSim "POST" (some ⟨some "hello", some ⟨none, none, none, none, none, none⟩,
        some 2, false⟩)).generationCalled = false :=
  handler_rejects_missing_feedback _ 2 rfl (by omega) rfl

/-! ### Claim C10 -/

/-- Claim C10 (confirmed): omitted strictness settings receive the fixed
defaults — fragment-adherence (religiosity) 'ish', rhythm 'yes', rhyming
'ish', meaning 'yes' — and provided (truthy) values are lowercased; in
particular a valid request that omits the rhythm setting is processed
under strict rhythm, which switches on the strict output-validation and
regeneration step. -/
theorem handler_defaults (raw : RawSettings) (b : RequestBody) (v : String) :
    (raw.religiosity = none → (normalizeSettings raw).religiosity = "ish") ∧
      (raw.rhythm = none → (normalizeSettings raw).rhythm = "yes") ∧
      (raw.rhyming = none → (normalizeSettings raw).rhyming = "ish") ∧
      (raw.meaning = none → (normalizeSettings raw).meaning = "yes") ∧
      (raw.rhythm = some v → v ≠ "" →
        (normalizeSettings raw).rhythm = lowerStr v) ∧
      (b.settings = some raw → raw.rhythm = none →
        validateRequest (some b) = none →
        (handlerSim "POST" (some b)).settingsUsed = some (normalizeSettings raw) ∧
          (handlerSim "POST" (some b)).regenerationRan = true) := by
  refine ⟨?_, ?_, ?_, ?_, ?_, ?_⟩
  · intro h
    simp [normalizeSettings, jsOrStr, h]
    decide
  · intro h
    simp [normalizeSettings, jsOrStr, h]
    decide
  · intro h
    simp [normalizeSettings, jsOrStr, h]
    decide
  · intro h
    simp [normalizeSettings, jsOrStr, h]
    decide
  · intro h hne
    simp [normalizeSettings, jsOrStr, h, hne]
  · intro hset hrn hval
    unfold handlerSim
    rw [if_neg (by simp)]
    simp only [hval]
    rw [hset]
    have hry : (normalizeSettings raw).rhythm = "yes" := by
      simp [normalizeSettings, jsOrStr, hrn]
      decide
    refine ⟨rfl, ?_⟩
    show ((normalizeSettings raw).rhythm == "yes"
      || (normalizeSettings raw).rhyming == "yes") = true
    rw [hry]
    rfl

/-- Witness for `handler_defaults`: a valid request with every setting
omitted is processed under rhythm 'yes' with the regeneration step
enabled. -/
theorem handler_defaults_witness :
    (handlerSim "POST" (some ⟨some "hello", some ⟨none, none, none, none, none, none⟩,
        none, false⟩)).settingsUsed
        = some (normalizeSettings ⟨none, none, none, none, none, none⟩) ∧
      (handlerSim "POST" (some ⟨some "hello", some ⟨none, none, none, none, none, none⟩,
        none, false⟩)).regenerationRan = true ∧
      (normalizeSettings ⟨none, none, none, none, none, none⟩).rhythm = "yes" :=
  ⟨((handler_defaults ⟨none, none, none, none, none, none⟩
      ⟨some "hello", some ⟨none, none, none, none, none, none⟩, none, false⟩
      "x").2.2.2.2.2 rfl rfl (by decide)).1,
   ((handler_defaults ⟨none, none, none, none, none, none⟩
      ⟨some "hello", some ⟨none, none, none, none, none, none⟩, none, false⟩
      "x").2.2.2.2.2 rfl rfl (by decide)).2,
   (handler_defaults ⟨none, none, none, none, none, none⟩
      ⟨some "hello", some ⟨none, none, none, none, none, none⟩, none, false⟩
      "x").2.1 rfl⟩

end Lybrarian
